import Mathlib

/-!
Shallow embedding of `src/main.cpp` of fml-ast-interpreter

The program reads a JSON document, builds a tree of `AST` nodes from it
(`Interpreter::Interpreter`, `Interpreter::parse`) and evaluates the tree
(`AST::eval`), printing through the format mini-language of `AST_Print::eval`.

Conventions of the embedding.

* A `std::string` is a `List Char`; every element stands for one C++ `char`.
* An `AST *` is an `Option AST`: `none` is the null pointer.
* Text written to `std::cout` and `std::cerr` is collected in a `Run`, together with
  the returned value or the `Fault` that stopped the program.  `std::endl` is the
  newline character.
* The cursors `int i`, `int j` of `AST_Print::eval` are natural numbers (a format
  string is shorter than `2^31` characters).
* `nlohmann::json` values are the type `Json`; its serializer (`operator<<`) is a
  parameter `dump` of the functions that print a JSON value.
-/

/-! ## Effects -/

/-- Ways in which the C++ program leaves defined, returning behaviour. -/
inductive Fault where
  /-- The expression `arguments[j]` is evaluated with `j ≥ arguments.size()`: undefined behaviour. -/
  | outOfBounds (j size : Nat)
  /-- A member function is called through a null `AST *`: undefined behaviour. -/
  | nullDeref
  /-- The JSON library throws `type_error`; nothing catches it. -/
  | typeError
  /-- A `double` outside the range of `int` is converted to `int`: undefined behaviour. -/
  | floatRange
  /-- The iteration budget of the embedded `while` loop is used up. -/
  | outOfFuel
  deriving DecidableEq, Repr

/-- Result of running a piece of the program: the text it wrote to `std::cout` and to
`std::cerr`, and the value it returned or the fault that stopped it. -/
structure Run (α : Type) where
  out : List Char
  err : List Char
  res : Except Fault α

namespace Run

/-- Return `a` without writing anything. -/
def ret {α : Type} (a : α) : Run α := ⟨[], [], .ok a⟩

/-- Stop with fault `f` without writing anything. -/
def fault {α : Type} (f : Fault) : Run α := ⟨[], [], .error f⟩

/-- The statement `std::cout << s`. -/
def cout (s : List Char) : Run Unit := ⟨s, [], .ok ()⟩

/-- The statement `std::cerr << s`. -/
def cerr (s : List Char) : Run Unit := ⟨[], s, .ok ()⟩

/-- Lift the result of a pure conversion that may throw. -/
def lift {α : Type} (e : Except Fault α) : Run α := ⟨[], [], e⟩

/-- Sequencing: run `r`, and if it returned, continue with `k`; the text written by
both is concatenated in order. -/
def bind {α β : Type} (r : Run α) (k : α → Run β) : Run β :=
  match r.res with
  | .error f => ⟨r.out, r.err, .error f⟩
  | .ok a => ⟨r.out ++ (k a).out, r.err ++ (k a).err, (k a).res⟩

end Run

/-! ## The node model (lines 9-128) -/

/-- The class hierarchy under `AST`, as a closed variant type.  Child vectors hold
`AST *` pointers, so their entries are `Option AST`. -/
inductive AST where
  /-- Class `AST_Top` with its field `nodes`. -/
  | Top (nodes : List (Option AST))
  /-- Class `AST_Print` with its fields `format` and `arguments`. -/
  | Print (format : List Char) (arguments : List (Option AST))
  /-- Class `AST_Null`. -/
  | Null
  /-- Class `AST_Integer` with its field `x`. -/
  | Integer (x : Int)
  /-- Class `AST_Bool` with its field `val`. -/
  | Bool (val : Bool)

/-- The library function `std::to_string(int)`: decimal digits, with a leading minus sign for
a negative value. -/
def std_to_string (x : Int) : List Char :=
  if x < 0 then '-' :: Nat.toDigits 10 x.natAbs else Nat.toDigits 10 x.toNat

/-- The virtual `to_string`: overridden by `AST_Null` (line 96), `AST_Integer` (line 110) and
`AST_Bool` (line 125); the other classes inherit `AST::to_string` (line 12). -/
def AST.to_string : AST → List Char
  | .Null => "null".toList
  | .Integer x => std_to_string x
  | .Bool val => if val then "true".toList else "false".toList
  | .Top _ => []
  | .Print _ _ => []

/-- The character `format[i]`.  Index `format.size()` holds the terminator `'\0'`; the scan
never reads beyond it. -/
def charAt (format : List Char) (i : Nat) : Char := format.getD i (Char.ofNat 0)

/-- The double quote character. -/
def dquote : Char := Char.ofNat 34

/-- The diagnostic of line 72. -/
def unexpectedCharacter : List Char := "Unexpected character in formatting string\n".toList

/-- The `switch (format[++i])` of lines 52-73, for the selector `c`. -/
def AST_Print.escape (c : Char) : Run Unit :=
  if c = '~' then Run.cout ['~']
  else if c = 'n' then Run.cout ['\n']
  else if c = dquote then Run.cout [dquote]
  else if c = 'r' then Run.cout ['\r']
  else if c = 't' then Run.cout ['\t']
  else if c = '\\' then Run.cout ['\\']
  else Run.cerr unexpectedCharacter

/-- The statement `std::cout << arguments[j]->to_string()` of line 77. -/
def AST_Print.placeholder (arguments : List (Option AST)) (j : Nat) : Run Unit :=
  match arguments.get? j with
  | none => Run.fault (.outOfBounds j arguments.length)
  | some none => Run.fault .nullDeref
  | some (some node) => Run.cout node.to_string

/-- One iteration of the `while` loop of `AST_Print::eval` (lines 51-82), started with the
cursors `i < format.size()` and `j`; returns the cursors after the iteration. -/
def AST_Print.body (format : List Char) (arguments : List (Option AST)) (i j : Nat) :
    Run (Nat × Nat) :=
  if charAt format i = '\\' then
    (AST_Print.escape (charAt format (i + 1))).bind fun _ => Run.ret (i + 2, j)
  else if charAt format i = '~' then
    (AST_Print.placeholder arguments j).bind fun _ => Run.ret (i + 1, j + 1)
  else
    (Run.cout [charAt format i]).bind fun _ => Run.ret (i + 1, j)

/-- The `while (i < format.size())` loop of `AST_Print::eval` followed by `return 1`, from the
cursors `i`, `j`, running at most `fuel` iterations. -/
def AST_Print.loop (format : List Char) (arguments : List (Option AST)) :
    Nat → Nat → Nat → Run Int
  | fuel, i, j =>
    if i < format.length then
      match fuel with
      | 0 => Run.fault .outOfFuel
      | fuel + 1 =>
        (AST_Print.body format arguments i j).bind fun c =>
          AST_Print.loop format arguments fuel c.1 c.2
    else Run.ret 1

/-- The function `AST_Print::eval` (lines 48-85).  Every iteration advances `i`, so
`format.size()` iterations are enough. -/
def AST_Print.eval (format : List Char) (arguments : List (Option AST)) : Run Int :=
  AST_Print.loop format arguments format.length 0 0

mutual
/-- The virtual `eval`: `AST_Top::eval` (line 24), `AST_Print::eval` (line 48),
`AST_Null::eval` (line 92), `AST_Integer::eval` (line 107), `AST_Bool::eval` (line 121). -/
def AST.eval : AST → Run Int
  | .Top nodes => (AST_Top.evalNodes nodes).bind fun _ => Run.ret 1
  | .Print format arguments => AST_Print.eval format arguments
  | .Null => Run.ret 0
  | .Integer x => Run.ret x
  | .Bool val => Run.ret (if val then 1 else 0)
/-- The loop `for (AST * node : nodes) node->eval();` of `AST_Top::eval` (lines 25-27). -/
def AST_Top.evalNodes : List (Option AST) → Run Unit
  | [] => Run.ret ()
  | none :: _ => Run.fault .nullDeref
  | some node :: rest => (AST.eval node).bind fun _ => AST_Top.evalNodes rest
end

/-! ## JSON values (`nlohmann::json`) -/

/-- A value of `nlohmann::json` as produced by reading a JSON text.  An object lists its
members in the order in which the library iterates them (ascending keys, each key once).
The constructor `number` covers `number_integer` and `number_unsigned`, the constructor `float`
carries the exact value of a `number_float`. -/
inductive Json where
  | null
  | boolean (b : Bool)
  | number (n : Int)
  | float (q : ℚ)
  | string (s : List Char)
  | array (elements : List Json)
  | object (members : List (List Char × Json))

/-- Conversion of a 64-bit integer to `int` by `static_cast<int>`: the value modulo `2^32`
in the range `[-2^31, 2^31)`. -/
def wrap32 (n : Int) : Int := (n + 2147483648) % 4294967296 - 2147483648

/-- The range of `int`. -/
def inInt32 (n : Int) : Prop := -2147483648 ≤ n ∧ n ≤ 2147483647

instance (n : Int) : Decidable (inInt32 n) := by unfold inInt32; exact inferInstance

/-- Implicit conversion of a `json` to `int` (line 140): every number kind and `boolean` is
accepted and passed through `static_cast<int>`, every other kind throws `type_error`. -/
def Json.get_int : Json → Except Fault Int
  | .number n => .ok (wrap32 n)
  | .float q =>
    if inInt32 (Int.tdiv q.num q.den) then .ok (Int.tdiv q.num q.den) else .error .floatRange
  | .boolean b => .ok (if b then 1 else 0)
  | _ => .error .typeError

/-- Implicit conversion of a `json` to `bool` (line 146): only `boolean` is accepted. -/
def Json.get_bool : Json → Except Fault Bool
  | .boolean b => .ok b
  | _ => .error .typeError

/-- Implicit conversion of a `json` to `std::string` (line 154): only `string` is accepted. -/
def Json.get_string : Json → Except Fault (List Char)
  | .string s => .ok s
  | _ => .error .typeError

/-- Member access `operator[](key)` on the member list of an object; a missing member is
inserted as `null`. -/
def Json.member (key : List Char) : List (List Char × Json) → Json
  | [] => .null
  | (k, v) :: rest => if k = key then v else Json.member key rest

/-- Member access `value[key]` on a non-const `json`: `null` becomes an object whose new member
is `null`, an object gives its member, every other kind throws `type_error`. -/
def Json.at (key : List Char) : Json → Except Fault Json
  | .null => .ok .null
  | .object members => .ok (Json.member key members)
  | _ => .error .typeError

/-- The text `Unknown node: <key>` followed by `std::endl` (line 157). -/
def unknownNode (key : List Char) : List Char := "Unknown node: ".toList ++ key ++ ['\n']

/-- The loop of `parse` over `items()` of an array with `n` elements, from index `k`: the keys
are the decimal indices, none of which is a tag. -/
def Interpreter.parseIndices : Nat → Nat → Run Unit
  | 0, _ => Run.ret ()
  | n + 1, k => (Run.cout (unknownNode (Nat.toDigits 10 k))).bind fun _ =>
      Interpreter.parseIndices n (k + 1)

/-- The function `Interpreter::parse` on a value that is neither an array nor an object.  The
string `"Null"` is the bare tag (line 135); `items()` yields nothing for `null` and, for every
other such value, one entry whose key is the empty string. -/
def Interpreter.parseScalar : Json → Run (Option AST)
  | .string s =>
    if s = "Null".toList then Run.ret (some .Null)
    else (Run.cout (unknownNode [])).bind fun _ => Run.ret none
  | .null => Run.ret none
  | _ => (Run.cout (unknownNode [])).bind fun _ => Run.ret none

mutual
/-- The function `Interpreter::parse` (lines 134-161). -/
def Interpreter.parse (dump : Json → List Char) : Json → Run (Option AST)
  | .array elements =>
    (Interpreter.parseIndices elements.length 0).bind fun _ => Run.ret none
  | .object members => Interpreter.parseItems dump members
  | .null => Interpreter.parseScalar .null
  | .boolean b => Interpreter.parseScalar (.boolean b)
  | .number n => Interpreter.parseScalar (.number n)
  | .float q => Interpreter.parseScalar (.float q)
  | .string s => Interpreter.parseScalar (.string s)
/-- The loop `for (auto & x : command.items())` of lines 138-159 over the members of an
object, followed by `return nullptr`. -/
def Interpreter.parseItems (dump : Json → List Char) :
    List (List Char × Json) → Run (Option AST)
  | [] => Run.ret none
  | (key, value) :: rest =>
    if key = "Integer".toList then
      (Run.lift value.get_int).bind fun x => Run.ret (some (.Integer x))
    else if key = "Null".toList then
      Run.ret (some .Null)
    else if key = "Boolean".toList then
      (Run.lift value.get_bool).bind fun val => Run.ret (some (.Bool val))
    else if key = "Print".toList then
      Interpreter.parsePrint dump value
    else
      (Run.cout (unknownNode key)).bind fun _ => Interpreter.parseItems dump rest
/-- The `"Print"` branch (lines 149-154) for the payload `x.value()`. -/
def Interpreter.parsePrint (dump : Json → List Char) : Json → Run (Option AST)
  | .object fields =>
    (Interpreter.parseMember dump fields).bind fun arguments =>
      (Run.lift (Json.member "format".toList fields).get_string).bind fun format =>
        Run.ret (some (.Print format arguments))
  -- a `null` payload: `["arguments"]` yields `null` (no element), then the conversion of
  -- the `null` member `["format"]` to `std::string` throws
  | .null => Run.fault .typeError
  -- any other payload: `operator[]` with a string key throws
  | _ => Run.fault .typeError
/-- The loop of lines 150-153 for an object payload: finds the member `"arguments"` and
runs the loop over it; a missing member is `null`, which has no element. -/
def Interpreter.parseMember (dump : Json → List Char) :
    List (List Char × Json) → Run (List (Option AST))
  | [] => Run.ret []
  | (k, v) :: rest =>
    if k = "arguments".toList then Interpreter.parseElements dump v
    else Interpreter.parseMember dump rest
/-- The loop that prints and parses every element of a `json` value, collecting the results
with `push_back` (lines 150-153 and 166-171).  The elements of an array are its entries,
those of an object its member values, `null` has none, and any other value is its own only
element. -/
def Interpreter.parseElements (dump : Json → List Char) : Json → Run (List (Option AST))
  | .array elements => Interpreter.parseList dump elements
  | .object members => Interpreter.parseValues dump members
  | .null => Run.ret []
  | .boolean b => (Run.cout (dump (.boolean b) ++ ['\n'])).bind fun _ =>
      (Interpreter.parseScalar (.boolean b)).bind fun node => Run.ret [node]
  | .number n => (Run.cout (dump (.number n) ++ ['\n'])).bind fun _ =>
      (Interpreter.parseScalar (.number n)).bind fun node => Run.ret [node]
  | .float q => (Run.cout (dump (.float q) ++ ['\n'])).bind fun _ =>
      (Interpreter.parseScalar (.float q)).bind fun node => Run.ret [node]
  | .string s => (Run.cout (dump (.string s) ++ ['\n'])).bind fun _ =>
      (Interpreter.parseScalar (.string s)).bind fun node => Run.ret [node]
/-- The loop body `std::cout << arg << std::endl; arguments.push_back(parse(arg));` over a
list of elements. -/
def Interpreter.parseList (dump : Json → List Char) : List Json → Run (List (Option AST))
  | [] => Run.ret []
  | arg :: rest =>
    (Run.cout (dump arg ++ ['\n'])).bind fun _ =>
      (Interpreter.parse dump arg).bind fun node =>
        (Interpreter.parseList dump rest).bind fun nodes => Run.ret (node :: nodes)
/-- The same loop over the member values of an object. -/
def Interpreter.parseValues (dump : Json → List Char) :
    List (List Char × Json) → Run (List (Option AST))
  | [] => Run.ret []
  | (_, arg) :: rest =>
    (Run.cout (dump arg ++ ['\n'])).bind fun _ =>
      (Interpreter.parse dump arg).bind fun node =>
        (Interpreter.parseValues dump rest).bind fun nodes => Run.ret (node :: nodes)
end

/-- The constructor `Interpreter::Interpreter` (lines 163-173); the result is the tree
stored in `m_top`. -/
def Interpreter.Interpreter (dump : Json → List Char) (top : Json) : Run AST :=
  (Run.lift (Json.at "Top".toList top)).bind fun t =>
    (Run.cout (dump t ++ ['\n'])).bind fun _ =>
      (Interpreter.parseElements dump t).bind fun data => Run.ret (.Top data)

/-- The function `Interpreter::interpret` (lines 179-181). -/
def Interpreter.interpret (m_top : AST) : Run Unit :=
  m_top.eval.bind fun _ => Run.ret ()

/-- The function `main` after the document has been read (lines 189-192). -/
def program (dump : Json → List Char) (top : Json) : Run Int :=
  (Interpreter.Interpreter dump top).bind fun m_top =>
    (Interpreter.interpret m_top).bind fun _ => Run.ret 0

/-! ## The format scan on the unread part of the format string -/

/-- The scan of `AST_Print::eval` written as a recursion on the part of the format string that
has not been read yet, with the argument cursor `j`.  It is a proof device: `eval_eq_scan`
shows that `AST_Print.eval` computes it. -/
def AST_Print.scan (arguments : List (Option AST)) : List Char → Nat → Run Int
  | [], _ => Run.ret 1
  | [c], j =>
    if c = '\\' then (AST_Print.escape (Char.ofNat 0)).bind fun _ => Run.ret 1
    else if c = '~' then (AST_Print.placeholder arguments j).bind fun _ => Run.ret 1
    else (Run.cout [c]).bind fun _ => Run.ret 1
  | c :: d :: rest, j =>
    if c = '\\' then (AST_Print.escape d).bind fun _ => AST_Print.scan arguments rest j
    else if c = '~' then
      (AST_Print.placeholder arguments j).bind fun _ => AST_Print.scan arguments (d :: rest) (j + 1)
    else (Run.cout [c]).bind fun _ => AST_Print.scan arguments (d :: rest) j

/-! ## Definitions used to state the claims -/

/-- The escape selectors of the format language with the character each one stands for
(specification, section 4.3). -/
def escapeTable : List (Char × Char) :=
  [('~', '~'), ('n', '\n'), (dquote, dquote), ('r', '\r'), ('t', '\t'), ('\\', '\\')]

/-- The format string `p0 ~ p1 ~ ... ~ pk` made of the pieces `p0` and `ps = [p1, ..., pk]`. -/
def joinPieces (p0 : List Char) (ps : List (List Char)) : List Char :=
  p0 ++ (ps.map fun p => '~' :: p).flatten

/-- The text `render(a0) ++ p1 ++ render(a1) ++ ... ++ pk` for the pieces `[p1, ..., pk]`,
which uses the first `k` arguments. -/
def substituted : List AST → List (List Char) → List Char
  | a :: args, p :: ps => a.to_string ++ p ++ substituted args ps
  | _, _ => []

/-! ## Decimal numerals (used to state the claim about `to_string` of an Integer) -/

/-- The value of a decimal digit character; `none` for any other character. -/
def digitValue (c : Char) : Option Nat :=
  if c.isDigit then some (c.toNat - 48) else none

/-- Reading a sequence of decimal digits from left to right, starting from the value `acc`;
`none` when a character is not a digit. -/
def readDigits : List Char → Nat → Option Nat
  | [], acc => some acc
  | c :: cs, acc =>
    match digitValue c with
    | none => none
    | some d => readDigits cs (acc * 10 + d)

/-- Parsing a decimal integer: an optional `-` followed by at least one digit. -/
def parseDecimal : List Char → Option Int
  | [] => none
  | c :: cs =>
    if c = '-' then
      if cs = [] then none else (readDigits cs 0).map fun n => -(n : Int)
    else (readDigits (c :: cs) 0).map fun n => (n : Int)

/-- A nonempty sequence of decimal digits without a leading zero, except for the numeral `0`
itself. -/
def canonicalDigits (ds : List Char) : Bool :=
  !ds.isEmpty && ds.all Char.isDigit && (ds.head? != some '0' || ds.length == 1)

/-- The canonical decimal form of an integer: canonical digits, preceded by `-` for a negative
value (so never `-0`), and no `+`. -/
def canonicalDecimal : List Char → Bool
  | [] => false
  | c :: cs =>
    if c = '-' then canonicalDigits cs && cs != ['0'] else canonicalDigits (c :: cs)

/-! ## Placeholders of a format string -/

/-- The number of unescaped `~` placeholders of a format string: a backslash hides the
character after it, a backslash at the very end hides nothing. -/
def placeholders : List Char → Nat
  | [] => 0
  | [c] => if c = '~' then 1 else 0
  | c :: d :: rest =>
    if c = '\\' then placeholders rest
    else if c = '~' then 1 + placeholders (d :: rest)
    else placeholders (d :: rest)

/-! ## Tags and the shape of records -/

/-- The tag names `parse` recognizes as keys (lines 139-148). -/
def tags : List (List Char) :=
  ["Integer".toList, "Null".toList, "Boolean".toList, "Print".toList]

/-- The keys of the entries that `items()` yields for a value (line 138): the member keys of
an object, the decimal indices of an array, nothing for `null`, and the empty key for any
other value. -/
def Json.keys : Json → List (List Char)
  | .object members => members.map Prod.fst
  | .array elements => (List.range elements.length).map (Nat.toDigits 10)
  | .null => []
  | _ => [[]]

/-- Whether a value is an integer number. -/
def Json.isNumber : Json → Bool
  | .number _ => true
  | _ => false

/-- Whether a value is a boolean. -/
def Json.isBoolean : Json → Bool
  | .boolean _ => true
  | _ => false

/-- Whether a value is a string. -/
def Json.isString : Json → Bool
  | .string _ => true
  | _ => false

mutual
/-- A record whose entries with a recognized key carry a payload of the type given in
section 6 of the specification, the records nested as Print arguments included.  With
`closed = true` the record must moreover be the bare string `"Null"` or a mapping with at
least one entry all of whose keys are tags. -/
def Json.wellTyped (closed : Bool) : Json → Bool
  | .object members => (!closed || !members.isEmpty) && Json.wellTypedItems closed members
  | .string s => !closed || decide (s = "Null".toList)
  | .array _ => !closed
  | .null => !closed
  | .boolean _ => !closed
  | .number _ => !closed
  | .float _ => !closed
/-- Every entry of a mapping is well typed: `"Integer"` carries an integer number,
`"Boolean"` a boolean, `"Null"` anything, `"Print"` a Print payload; an entry with another
key is accepted unless `closed`. -/
def Json.wellTypedItems (closed : Bool) : List (List Char × Json) → Bool
  | [] => true
  | (key, value) :: rest =>
    (if key = "Integer".toList then value.isNumber
     else if key = "Null".toList then true
     else if key = "Boolean".toList then value.isBoolean
     else if key = "Print".toList then Json.wellTypedPrint closed value
     else !closed) && Json.wellTypedItems closed rest
/-- A Print payload: a mapping whose member `"format"` is a string and whose member
`"arguments"` is an array of well-typed records. -/
def Json.wellTypedPrint (closed : Bool) : Json → Bool
  | .object fields =>
    (Json.member "format".toList fields).isString && Json.wellTypedMember closed fields
  | _ => false
/-- The member `"arguments"` exists and is an array of well-typed records. -/
def Json.wellTypedMember (closed : Bool) : List (List Char × Json) → Bool
  | [] => false
  | (k, v) :: rest =>
    if k = "arguments".toList then Json.wellTypedArray closed v
    else Json.wellTypedMember closed rest
/-- An array of well-typed records. -/
def Json.wellTypedArray (closed : Bool) : Json → Bool
  | .array elements => Json.wellTypedList closed elements
  | _ => false
/-- Every record of the list is well typed. -/
def Json.wellTypedList (closed : Bool) : List Json → Bool
  | [] => true
  | r :: rs => Json.wellTyped closed r && Json.wellTypedList closed rs
end

mutual
/-- The JSON values that `parse` prints while it builds a record, in order: every argument
of a Print record (line 151), each followed by what its own build prints. -/
def Json.printed : Json → List Json
  | .object members => Json.printedItems members
  | _ => []
/-- The values printed for the entry that `parse` dispatches on: the first one whose key is
a tag. -/
def Json.printedItems : List (List Char × Json) → List Json
  | [] => []
  | (key, value) :: rest =>
    if key = "Print".toList then Json.printedPrint value
    else if key ∈ tags then []
    else Json.printedItems rest
/-- The values printed for a Print payload. -/
def Json.printedPrint : Json → List Json
  | .object fields => Json.printedMember fields
  | _ => []
/-- The values printed for the member `"arguments"` of a Print payload. -/
def Json.printedMember : List (List Char × Json) → List Json
  | [] => []
  | (k, v) :: rest =>
    if k = "arguments".toList then Json.printedArray v else Json.printedMember rest
/-- The values printed for an array of records. -/
def Json.printedArray : Json → List Json
  | .array elements => Json.printedList elements
  | _ => []
/-- The values printed for a list of records: each record, then what its build prints. -/
def Json.printedList : List Json → List Json
  | [] => []
  | r :: rs => r :: (Json.printed r ++ Json.printedList rs)
end

/-- The text of a sequence of printed JSON values: each serialized value followed by
`std::endl`. -/
def dumpLines (dump : Json → List Char) (values : List Json) : List Char :=
  (values.map fun v => dump v ++ ['\n']).flatten

/-! ## Evaluation with the objects after the call

The member functions `eval` and `to_string` are not `const`: a call may assign to the fields of
its object and of the objects it reaches.  The definitions below translate the same source
lines as `AST.eval` and `AST.to_string`, and also return the object as it is after the call,
so that a change of a field is visible. -/

/-- Apply a function to the returned value of a run. -/
def Run.map {α β : Type} (f : α → β) (r : Run α) : Run β := ⟨r.out, r.err, r.res.map f⟩

/-- The virtual `to_string` (lines 12, 96, 110, 125) with the object after the call. -/
def AST.to_stringS : AST → List Char × AST
  | .Null => ("null".toList, .Null)
  | .Integer x => (std_to_string x, .Integer x)
  | .Bool val => (if val then "true".toList else "false".toList, .Bool val)
  | .Top nodes => ([], .Top nodes)
  | .Print format arguments => ([], .Print format arguments)

/-- The variables of a running `AST_Print::eval`: the fields `format` and `arguments` of the
object and the locals `i` and `j`. -/
structure PrintFrame where
  format : List Char
  arguments : List (Option AST)
  i : Nat
  j : Nat

/-- The statement `std::cout << arguments[j++]->to_string()` of line 77 on the frame: the
object behind `arguments[j]` is replaced by what `to_string` leaves, and `j` is incremented. -/
def AST_Print.placeholderS (s : PrintFrame) : Run PrintFrame :=
  match s.arguments.get? s.j with
  | none => Run.fault (.outOfBounds s.j s.arguments.length)
  | some none => Run.fault .nullDeref
  | some (some node) =>
    (Run.cout node.to_stringS.1).bind fun _ =>
      Run.ret { s with arguments := s.arguments.set s.j (some node.to_stringS.2), j := s.j + 1 }

/-- One iteration of the `while` loop of `AST_Print::eval` (lines 51-82) on the frame. -/
def AST_Print.bodyS (s : PrintFrame) : Run PrintFrame :=
  if charAt s.format s.i = '\\' then
    (AST_Print.escape (charAt s.format (s.i + 1))).bind fun _ =>
      Run.ret { s with i := s.i + 2 }
  else if charAt s.format s.i = '~' then
    (AST_Print.placeholderS s).bind fun s' => Run.ret { s' with i := s'.i + 1 }
  else
    (Run.cout [charAt s.format s.i]).bind fun _ => Run.ret { s with i := s.i + 1 }

/-- The `while (i < format.size())` loop followed by `return 1` on the frame, running at most
`fuel` iterations; it returns the result and the frame at the end. -/
def AST_Print.loopS : Nat → PrintFrame → Run (Int × PrintFrame)
  | fuel, s =>
    if s.i < s.format.length then
      match fuel with
      | 0 => Run.fault .outOfFuel
      | fuel + 1 => (AST_Print.bodyS s).bind fun s' => AST_Print.loopS fuel s'
    else Run.ret (1, s)

/-- The function `AST_Print::eval` (lines 48-85) with the object after the call: the fields
are those of the frame at the end of the loop. -/
def AST_Print.evalS (format : List Char) (arguments : List (Option AST)) : Run (Int × AST) :=
  (AST_Print.loopS format.length ⟨format, arguments, 0, 0⟩).bind fun r =>
    Run.ret (r.1, .Print r.2.format r.2.arguments)

mutual
/-- The virtual `eval` (lines 24, 48, 92, 107, 121) with the object after the call. -/
def AST.evalS : AST → Run (Int × AST)
  | .Top nodes => (AST_Top.evalNodesS nodes).bind fun nodes' => Run.ret (1, .Top nodes')
  | .Print format arguments => AST_Print.evalS format arguments
  | .Null => Run.ret (0, .Null)
  | .Integer x => Run.ret (x, .Integer x)
  | .Bool val => Run.ret (if val then 1 else 0, .Bool val)
/-- The loop of `AST_Top::eval` (lines 25-27) with the children after the calls. -/
def AST_Top.evalNodesS : List (Option AST) → Run (List (Option AST))
  | [] => Run.ret []
  | none :: _ => Run.fault .nullDeref
  | some node :: rest =>
    (AST.evalS node).bind fun r =>
      (AST_Top.evalNodesS rest).bind fun rest' => Run.ret (some r.2 :: rest')
end

/-! ## Lemmas about the format scan -/

theorem charAt_append (pre s : List Char) (k : Nat) :
    charAt (pre ++ s) (pre.length + k) = charAt s k := by
  induction pre with
  | nil => simp
  | cons a pre ih =>
    simpa [charAt, List.getD, Nat.add_right_comm pre.length 1 k] using ih

theorem charAt_append_zero (pre s : List Char) :
    charAt (pre ++ s) pre.length = charAt s 0 := by
  simpa using charAt_append pre s 0

theorem loop_of_le (format : List Char) (arguments : List (Option AST)) (fuel i j : Nat)
    (h : format.length ≤ i) : AST_Print.loop format arguments fuel i j = Run.ret 1 := by
  unfold AST_Print.loop
  simp [Nat.not_lt.mpr h]

theorem Run.ret_bind {α β : Type} (a : α) (k : α → Run β) : (Run.ret a).bind k = k a := by
  simp [Run.bind, Run.ret]

theorem Run.bind_assoc {α β γ : Type} (r : Run α) (f : α → Run β) (g : β → Run γ) :
    (r.bind f).bind g = r.bind fun a => (f a).bind g := by
  obtain ⟨o, e, res⟩ := r
  cases res with
  | error x => simp [Run.bind]
  | ok a =>
    cases h : (f a).res with
    | error x => simp [Run.bind, h]
    | ok b => simp [Run.bind, h]

theorem body_bind (format : List Char) (arguments : List (Option AST)) (i j : Nat)
    (k : Nat × Nat → Run Int) :
    (AST_Print.body format arguments i j).bind k =
      if charAt format i = '\\' then
        (AST_Print.escape (charAt format (i + 1))).bind fun _ => k (i + 2, j)
      else if charAt format i = '~' then
        (AST_Print.placeholder arguments j).bind fun _ => k (i + 1, j + 1)
      else (Run.cout [charAt format i]).bind fun _ => k (i + 1, j) := by
  unfold AST_Print.body
  split
  · simp [Run.bind_assoc, Run.ret_bind]
  · split <;> simp [Run.bind_assoc, Run.ret_bind]

theorem loop_succ (format : List Char) (arguments : List (Option AST)) (fuel i j : Nat)
    (h : i < format.length) :
    AST_Print.loop format arguments (fuel + 1) i j =
      if charAt format i = '\\' then
        (AST_Print.escape (charAt format (i + 1))).bind fun _ =>
          AST_Print.loop format arguments fuel (i + 2) j
      else if charAt format i = '~' then
        (AST_Print.placeholder arguments j).bind fun _ =>
          AST_Print.loop format arguments fuel (i + 1) (j + 1)
      else (Run.cout [charAt format i]).bind fun _ =>
          AST_Print.loop format arguments fuel (i + 1) j := by
  rw [AST_Print.loop]
  simp only [h, if_true]
  exact body_bind format arguments i j _

theorem loop_eq_scan (arguments : List (Option AST)) :
    ∀ (fuel : Nat) (pre s : List Char) (j : Nat), s.length ≤ fuel →
      AST_Print.loop (pre ++ s) arguments fuel pre.length j = AST_Print.scan arguments s j := by
  intro fuel
  induction fuel with
  | zero =>
    intro pre s j h
    have hs : s = [] := List.length_eq_zero.mp (Nat.le_zero.mp h)
    subst hs
    rw [loop_of_le _ _ _ _ _ (by simp)]
    simp [AST_Print.scan]
  | succ fuel ih =>
    intro pre s j h
    match s, h with
    | [], _ =>
      rw [loop_of_le _ _ _ _ _ (by simp)]
      simp [AST_Print.scan]
    | [c], _ =>
      have h1 : ∀ j, AST_Print.loop (pre ++ [c]) arguments fuel (pre.length + 1) j
          = Run.ret 1 := fun j => loop_of_le _ _ _ _ _ (by simp)
      have h2 : AST_Print.loop (pre ++ [c]) arguments fuel (pre.length + 2) j = Run.ret 1 :=
        loop_of_le _ _ _ _ _ (by simp)
      have hc : charAt (pre ++ [c]) pre.length = c := by
        rw [charAt_append_zero]; rfl
      have hd : charAt (pre ++ [c]) (pre.length + 1) = Char.ofNat 0 := by
        rw [charAt_append]; rfl
      rw [loop_succ _ _ _ _ _ (by simp), hc, hd, h2, h1, h1]
      simp only [AST_Print.scan]
    | c :: d :: rest, h =>
      have h1 : ∀ j, AST_Print.loop (pre ++ c :: d :: rest) arguments fuel (pre.length + 1) j
          = AST_Print.scan arguments (d :: rest) j := by
        intro j
        have := ih (pre ++ [c]) (d :: rest) j (by simpa using Nat.le_of_succ_le_succ h)
        simpa using this
      have h2 : AST_Print.loop (pre ++ c :: d :: rest) arguments fuel (pre.length + 2) j
          = AST_Print.scan arguments rest j := by
        have := ih (pre ++ [c, d]) rest j (by simp only [List.length_cons] at h; omega)
        simpa using this
      have hc : charAt (pre ++ c :: d :: rest) pre.length = c := by
        rw [charAt_append_zero]; rfl
      have hd : charAt (pre ++ c :: d :: rest) (pre.length + 1) = d := by
        rw [charAt_append]; rfl
      rw [loop_succ _ _ _ _ _ (by simp), hc, hd, h2, h1, h1]
      simp only [AST_Print.scan]

/-- The function `AST_Print.eval` computes the scan of the whole format string from argument
cursor `0`. -/
theorem eval_eq_scan (format : List Char) (arguments : List (Option AST)) :
    AST_Print.eval format arguments = AST_Print.scan arguments format 0 := by
  have h := loop_eq_scan arguments format.length [] format 0 (Nat.le_refl _)
  simpa [AST_Print.eval] using h

/-! ## Unfolding the scan -/

theorem scan_cons_escape (arguments : List (Option AST)) (d : Char) (s : List Char) (j : Nat) :
    AST_Print.scan arguments ('\\' :: d :: s) j =
      (AST_Print.escape d).bind fun _ => AST_Print.scan arguments s j := by
  simp [AST_Print.scan]

theorem scan_cons_tilde (arguments : List (Option AST)) (s : List Char) (j : Nat) :
    AST_Print.scan arguments ('~' :: s) j =
      (AST_Print.placeholder arguments j).bind fun _ => AST_Print.scan arguments s (j + 1) := by
  cases s <;> simp [AST_Print.scan]

theorem scan_cons_literal (arguments : List (Option AST)) (c : Char) (s : List Char) (j : Nat)
    (h1 : c ≠ '\\') (h2 : c ≠ '~') :
    AST_Print.scan arguments (c :: s) j =
      (Run.cout [c]).bind fun _ => AST_Print.scan arguments s j := by
  cases s <;> simp [AST_Print.scan, h1, h2]

theorem cout_bind {β : Type} (s : List Char) (k : Unit → Run β) :
    (Run.cout s).bind k = ⟨s ++ (k ()).out, (k ()).err, (k ()).res⟩ := by
  simp [Run.bind, Run.cout]

theorem cerr_bind {β : Type} (s : List Char) (k : Unit → Run β) :
    (Run.cerr s).bind k = ⟨(k ()).out, s ++ (k ()).err, (k ()).res⟩ := by
  simp [Run.bind, Run.cerr]

/-- A stretch of the format without `~` and without backslash is copied to the output. -/
theorem scan_literal (arguments : List (Option AST)) (p : List Char)
    (hp : '~' ∉ p ∧ '\\' ∉ p) (s : List Char) (j : Nat) :
    AST_Print.scan arguments (p ++ s) j =
      ⟨p ++ (AST_Print.scan arguments s j).out, (AST_Print.scan arguments s j).err,
        (AST_Print.scan arguments s j).res⟩ := by
  induction p with
  | nil => simp
  | cons c p ih =>
    have hc1 : c ≠ '\\' := fun e => hp.2 (by simp [e])
    have hc2 : c ≠ '~' := fun e => hp.1 (by simp [e])
    have hp' : '~' ∉ p ∧ '\\' ∉ p :=
      ⟨fun e => hp.1 (List.mem_cons_of_mem _ e), fun e => hp.2 (List.mem_cons_of_mem _ e)⟩
    rw [List.cons_append, scan_cons_literal _ _ _ _ hc1 hc2, cout_bind, ih hp']
    simp

/-- The placeholder statement on an argument that is present and not null. -/
theorem placeholder_some (done : List (Option AST)) (a : AST) (rest : List (Option AST)) :
    AST_Print.placeholder (done ++ some a :: rest) done.length = Run.cout a.to_string := by
  have h : (done ++ some a :: rest).get? done.length = some (some a) := by
    induction done with
    | nil => rfl
    | cons d done ih => simpa using ih
  unfold AST_Print.placeholder
  rw [h]

theorem scan_pieces (ps : List (List Char)) (hps : ∀ p ∈ ps, '~' ∉ p ∧ '\\' ∉ p) :
    ∀ (done : List (Option AST)) (args : List AST), ps.length ≤ args.length →
      AST_Print.scan (done ++ args.map some) (ps.map fun p => '~' :: p).flatten done.length =
        ⟨substituted args ps, [], .ok 1⟩ := by
  induction ps with
  | nil => intro done args _; cases args <;> simp [AST_Print.scan, substituted, Run.ret]
  | cons p ps ih =>
    intro done args hlen
    cases args with
    | nil => simp at hlen
    | cons a args =>
      have hp := hps p (List.mem_cons_self _ _)
      have hps' : ∀ q ∈ ps, '~' ∉ q ∧ '\\' ∉ q := fun q hq => hps q (List.mem_cons_of_mem _ hq)
      have h := ih hps' (done ++ [some a]) args (by simpa using hlen)
      simp only [List.append_assoc, List.singleton_append, List.length_append,
        List.length_singleton] at h
      simp only [List.map_cons, List.flatten_cons, List.cons_append]
      rw [scan_cons_tilde, placeholder_some, cout_bind, scan_literal _ _ hp, h]
      simp [substituted]

theorem charAt_of_get? (format : List Char) (i : Nat) (c : Char)
    (h : format.get? i = some c) : charAt format i = c := by
  unfold charAt
  rw [List.getD_eq_getElem?_getD]
  rw [List.get?_eq_getElem?] at h
  simp [h]

/-- A selector outside the table makes the `switch` take its `default` branch. -/
theorem escape_default (c : Char)
    (hc : c ≠ '~' ∧ c ≠ 'n' ∧ c ≠ dquote ∧ c ≠ 'r' ∧ c ≠ 't' ∧ c ≠ '\\') :
    AST_Print.escape c = Run.cerr unexpectedCharacter := by
  obtain ⟨h1, h2, h3, h4, h5, h6⟩ := hc
  simp [AST_Print.escape, h1, h2, h3, h4, h5, h6]

/-! ## Lemmas about evaluation and building -/

theorem bind_of_ok {α β : Type} (r : Run α) (k : α → Run β) (a : α) (h : r.res = .ok a) :
    r.bind k = ⟨r.out ++ (k a).out, r.err ++ (k a).err, (k a).res⟩ := by
  simp [Run.bind, h]

/-- The loop of `AST_Top::eval` over children that are not null and whose evaluations all
return: the children are evaluated one after the other. -/
theorem evalNodes_of_valid (children : List AST)
    (h : ∀ c ∈ children, ∃ v, c.eval.res = .ok v) :
    AST_Top.evalNodes (children.map some) =
      ⟨(children.map fun c => c.eval.out).flatten, (children.map fun c => c.eval.err).flatten,
        .ok ()⟩ := by
  induction children with
  | nil => simp [AST_Top.evalNodes, Run.ret]
  | cons c cs ih =>
    obtain ⟨v, hv⟩ := h c (List.mem_cons_self _ _)
    have ih' := ih fun d hd => h d (List.mem_cons_of_mem _ hd)
    rw [List.map_cons, AST_Top.evalNodes, bind_of_ok _ _ v hv, ih']
    simp

theorem wrap32_of_inInt32 (n : Int) (h : inInt32 n) : wrap32 n = n := by
  unfold inInt32 at h
  unfold wrap32
  omega

/-- The loop that prints and parses the elements of a list, when every element builds a
node: the results are the parsed elements, in order. -/
theorem parseList_of_built (dump : Json → List Char) (rs : List Json)
    (h : ∀ r ∈ rs, ∃ a, (Interpreter.parse dump r).res = .ok (some a)) :
    ∃ args : List (Option AST), (Interpreter.parseList dump rs).res = .ok args ∧
      List.Forall₂ (fun r a => (Interpreter.parse dump r).res = .ok a) rs args := by
  induction rs with
  | nil => exact ⟨[], by simp [Interpreter.parseList, Run.ret], List.Forall₂.nil⟩
  | cons r rs ih =>
    obtain ⟨a, ha⟩ := h r (List.mem_cons_self _ _)
    obtain ⟨args, hargs, hall⟩ := ih fun d hd => h d (List.mem_cons_of_mem _ hd)
    refine ⟨some a :: args, ?_, List.Forall₂.cons ha hall⟩
    rw [Interpreter.parseList, cout_bind, bind_of_ok _ _ _ ha, bind_of_ok _ _ _ hargs]
    rfl

/-- The model of `std::to_string(int)` produces the decimal text of the integer. -/
theorem std_to_string_eq_toString (x : Int) : std_to_string x = (toString x).toList := by
  cases x with
  | ofNat m =>
    have h : ¬ (Int.ofNat m < 0) := by simp
    simp only [std_to_string, h, if_false]
    rfl
  | negSucc m =>
    have h : Int.negSucc m < 0 := Int.negSucc_lt_zero m
    simp only [std_to_string, h, if_true]
    rfl
/-! ## Claims about `AST_Print::eval` -/

/-- Claim C1: for a format string `p0 ~ p1 ~ ... ~ pk` whose pieces contain neither `~` nor a
backslash, and at least `k` arguments, `AST_Print::eval` writes exactly
`p0 ++ render(a0) ++ p1 ++ ... ++ render(a(k-1)) ++ pk` to standard output, writes nothing to
the error stream, and returns 1. -/
theorem print_substitutes_placeholders (p0 : List Char) (ps : List (List Char))
    (args : List AST) (h0 : '~' ∉ p0 ∧ '\\' ∉ p0) (hps : ∀ p ∈ ps, '~' ∉ p ∧ '\\' ∉ p)
    (hlen : ps.length ≤ args.length) :
    AST_Print.eval (joinPieces p0 ps) (args.map some) =
      ⟨p0 ++ substituted args ps, [], .ok 1⟩ := by
  have h := scan_pieces ps hps [] args hlen
  simp only [List.nil_append, List.length_nil] at h
  rw [eval_eq_scan, joinPieces, scan_literal _ _ h0, h]

/-- Witness for C1: the two examples of the specification, format `~` with `[Integer(42)]` and
format `a~b~` with `[Integer(1), Boolean(false)]`. -/
theorem print_substitutes_placeholders_witness :
    AST_Print.eval "~".toList [some (.Integer 42)] = ⟨"42".toList, [], .ok 1⟩ ∧
    AST_Print.eval "a~b~".toList [some (.Integer 1), some (.Bool false)] =
      ⟨"a1bfalse".toList, [], .ok 1⟩ :=
  ⟨print_substitutes_placeholders [] [[]] [.Integer 42] (by decide) (by decide) (by decide),
   print_substitutes_placeholders ['a'] [['b'], []] [.Integer 1, .Bool false]
     (by decide) (by decide) (by decide)⟩

/-- Claim C2: when the scan cursor `i` is on a backslash followed by one of the selectors
`~ n " r t \`, one iteration of the loop writes exactly the one character the selector stands
for, moves the template cursor to `i + 2` and leaves the argument cursor `j` unchanged; the
format `\n\t\~` with any argument list writes newline, tab, `~` and returns 1. -/
theorem escape_writes_one_character :
    (∀ (format : List Char) (arguments : List (Option AST)) (i j : Nat) (c o : Char),
      (c, o) ∈ escapeTable → format.get? i = some '\\' → format.get? (i + 1) = some c →
        AST_Print.body format arguments i j = ⟨[o], [], .ok (i + 2, j)⟩) ∧
    (∀ arguments : List (Option AST),
      AST_Print.eval ['\\', 'n', '\\', 't', '\\', '~'] arguments =
        ⟨['\n', '\t', '~'], [], .ok 1⟩) := by
  constructor
  · intro format arguments i j c o hco h0 h1
    have e0 := charAt_of_get? format i _ h0
    have e1 := charAt_of_get? format (i + 1) _ h1
    simp only [escapeTable, List.mem_cons, Prod.mk.injEq, List.mem_nil_iff, or_false] at hco
    unfold AST_Print.body
    rw [e0, e1]
    rcases hco with h | h | h | h | h | h <;> obtain ⟨hc, ho⟩ := h <;> subst hc <;> subst ho <;>
      rfl
  · intro arguments
    rw [eval_eq_scan, scan_cons_escape, scan_cons_escape, scan_cons_escape]
    rfl

/-- Witness for C2: the two-character format `\n` at cursor 0. -/
theorem escape_writes_one_character_witness :
    AST_Print.body ['\\', 'n'] [] 0 0 = ⟨['\n'], [], .ok (2, 0)⟩ :=
  escape_writes_one_character.1 ['\\', 'n'] [] 0 0 'n' '\n' (by decide) rfl rfl

/-- Claim C3, behaviour of the code at the failing inputs: with more placeholders than
arguments `AST_Print::eval` evaluates `arguments[j]` with `j = arguments.size()`, an
out-of-bounds read, and reports nothing on the error stream. -/
theorem print_underflow_reads_out_of_bounds :
    AST_Print.eval ['~'] [] = ⟨[], [], .error (.outOfBounds 0 0)⟩ ∧
    AST_Print.eval ['a', '~', '~'] [some (.Integer 1)] =
      ⟨['a', '1'], [], .error (.outOfBounds 1 1)⟩ :=
  ⟨rfl, rfl⟩

/-- Claim C4: for a character `c` that is no escape selector, the format `\` `c` `t` makes
`AST_Print::eval` write to standard output exactly what the format `t` writes with the same
arguments, and end the same way; the only difference is the diagnostic put in front of the
error stream. -/
theorem malformed_escape_is_skipped (c : Char) (t : List Char) (arguments : List (Option AST))
    (hc : c ≠ '~' ∧ c ≠ 'n' ∧ c ≠ dquote ∧ c ≠ 'r' ∧ c ≠ 't' ∧ c ≠ '\\') :
    (AST_Print.eval ('\\' :: c :: t) arguments).out = (AST_Print.eval t arguments).out ∧
    (AST_Print.eval ('\\' :: c :: t) arguments).res = (AST_Print.eval t arguments).res ∧
    (AST_Print.eval ('\\' :: c :: t) arguments).err =
      unexpectedCharacter ++ (AST_Print.eval t arguments).err := by
  rw [eval_eq_scan, eval_eq_scan, scan_cons_escape, escape_default c hc, cerr_bind]
  exact ⟨rfl, rfl, rfl⟩

/-- Witness for C4: the format `\xa~` with the argument `Integer(7)` writes `a7`, as the
format `a~` does. -/
theorem malformed_escape_is_skipped_witness :
    (AST_Print.eval ['\\', 'x', 'a', '~'] [some (.Integer 7)]).out =
      (AST_Print.eval ['a', '~'] [some (.Integer 7)]).out ∧
    (AST_Print.eval ['\\', 'x', 'a', '~'] [some (.Integer 7)]).res =
      (AST_Print.eval ['a', '~'] [some (.Integer 7)]).res ∧
    (AST_Print.eval ['\\', 'x', 'a', '~'] [some (.Integer 7)]).err =
      unexpectedCharacter ++ (AST_Print.eval ['a', '~'] [some (.Integer 7)]).err :=
  malformed_escape_is_skipped 'x' ['a', '~'] [some (.Integer 7)] (by decide)

/-! ## Claims about building and evaluating the tree -/

/-- Claim C5, behaviour of the code at the failing input: for the document
`{"Top": [{"Foo": 1}, "Null"]}` the constructor stores a null pointer for the record with the
unrecognized tag, so the sequence has two entries, and `AST_Top::eval` then calls `eval`
through that null pointer. -/
theorem unrecognized_tag_leaves_null_child (dump : Json → List Char) :
    (Interpreter.Interpreter dump
      (.object [("Top".toList,
        .array [.object [("Foo".toList, .number 1)], .string "Null".toList])])).res =
      .ok (.Top [none, some .Null]) ∧
    (AST.Top [none, some .Null]).eval = ⟨[], [], .error .nullDeref⟩ :=
  ⟨rfl, rfl⟩

/-- Claim C6, behaviour of the code at the failing input: for the record
`{"Print": {"arguments": [{"Foo": 1}], "format": "~"}}` the function `parse` returns a Print
node whose argument vector holds a null pointer in place of the argument that failed to
build, and evaluating that node calls `to_string` through the null pointer. -/
theorem failed_argument_becomes_null (dump : Json → List Char) :
    (Interpreter.parse dump
      (.object [("Print".toList,
        .object [("arguments".toList, .array [.object [("Foo".toList, .number 1)]]),
                 ("format".toList, .string ['~'])])])).res =
      .ok (some (.Print ['~'] [none])) ∧
    (AST.Print ['~'] [none]).eval = ⟨[], [], .error .nullDeref⟩ :=
  ⟨rfl, rfl⟩

/-- Claim C7: for a Sequence whose children are nodes (no null pointer) with returning
evaluations, `AST_Top::eval` writes the concatenation, in input order, of what each child's own
evaluation writes (to standard output and to the error stream) and returns 1, whatever the
children return. -/
theorem sequence_evaluates_children_in_order (children : List AST)
    (h : ∀ c ∈ children, ∃ v, c.eval.res = .ok v) :
    (AST.Top (children.map some)).eval =
      ⟨(children.map fun c => c.eval.out).flatten, (children.map fun c => c.eval.err).flatten,
        .ok 1⟩ := by
  rw [AST.eval, evalNodes_of_valid children h]
  simp [Run.bind, Run.ret]

/-- Witness for C7: a Sequence of two Print nodes and an Integer. -/
theorem sequence_evaluates_children_in_order_witness :
    (AST.Top [some (.Print ['a', '~'] [some (.Integer 1)]), some (.Integer 5),
        some (.Print ['b'] [])]).eval = ⟨['a', '1', 'b'], [], .ok 1⟩ :=
  sequence_evaluates_children_in_order
    [.Print ['a', '~'] [some (.Integer 1)], .Integer 5, .Print ['b'] []]
    (by
      intro c hc
      simp only [List.mem_cons, List.mem_singleton, List.mem_nil_iff, or_false] at hc
      rcases hc with h | h | h <;> subst h
      · exact ⟨1, rfl⟩
      · exact ⟨5, rfl⟩
      · exact ⟨1, rfl⟩)

/-- Claim C8: `parse` of the bare string `"Null"` returns a Null node; of `{"Null": p}` a Null
node for every payload `p`; of `{"Boolean": b}` a Boolean node with value `b`; of
`{"Integer": n}` with `n` in the 32-bit signed range an Integer node with value `n`.  None of
these writes anything. -/
theorem parse_leaf_records (dump : Json → List Char) :
    Interpreter.parse dump (.string "Null".toList) = Run.ret (some .Null) ∧
    (∀ p : Json, Interpreter.parse dump (.object [("Null".toList, p)]) = Run.ret (some .Null)) ∧
    (∀ b : Bool, Interpreter.parse dump (.object [("Boolean".toList, .boolean b)]) =
      Run.ret (some (.Bool b))) ∧
    (∀ n : Int, inInt32 n → Interpreter.parse dump (.object [("Integer".toList, .number n)]) =
      Run.ret (some (.Integer n))) := by
  refine ⟨rfl, fun p => rfl, fun b => rfl, fun n hn => ?_⟩
  have h : Interpreter.parse dump (.object [("Integer".toList, .number n)]) =
      Run.ret (some (.Integer (wrap32 n))) := rfl
  rw [h, wrap32_of_inInt32 n hn]

/-- Witness for C8: the record `{"Integer": -5}`. -/
theorem parse_leaf_records_witness :
    Interpreter.parse (fun _ => []) (.object [("Integer".toList, .number (-5))]) =
      Run.ret (some (.Integer (-5))) :=
  (parse_leaf_records fun _ => []).2.2.2 (-5) (by decide)

/-- Claim C9: when every record `r0 .. r(n-1)` builds a node, `parse` of
`{"Print": {"arguments": [r0 .. r(n-1)], "format": f}}` returns a Print node whose format is
`f` and whose argument list has length `n`, its `i`-th entry being the result of `parse(ri)`,
in the same order. -/
theorem parse_print_record (dump : Json → List Char) (f : List Char) (rs : List Json)
    (h : ∀ r ∈ rs, ∃ a, (Interpreter.parse dump r).res = .ok (some a)) :
    ∃ args : List (Option AST),
      (Interpreter.parse dump
        (.object [("Print".toList,
          .object [("arguments".toList, .array rs), ("format".toList, .string f)])])).res =
        .ok (some (.Print f args)) ∧
      args.length = rs.length ∧
      List.Forall₂ (fun r a => (Interpreter.parse dump r).res = .ok a) rs args := by
  obtain ⟨args, hargs, hall⟩ := parseList_of_built dump rs h
  refine ⟨args, ?_, hall.length_eq.symm, hall⟩
  have e : Interpreter.parse dump
        (.object [("Print".toList,
          .object [("arguments".toList, .array rs), ("format".toList, .string f)])]) =
      (Interpreter.parseList dump rs).bind fun arguments =>
        (Run.lift (Except.ok f)).bind fun format =>
          Run.ret (some (.Print format arguments)) := rfl
  rw [e, bind_of_ok _ _ _ hargs]
  rfl

/-- Witness for C9: a Print record with the arguments `{"Integer": 1}` and `"Null"`. -/
theorem parse_print_record_witness :
    ∃ args : List (Option AST),
      (Interpreter.parse (fun _ => [])
        (.object [("Print".toList,
          .object [("arguments".toList,
              .array [.object [("Integer".toList, .number 1)], .string "Null".toList]),
            ("format".toList, .string ['~', '~'])])])).res =
        .ok (some (.Print ['~', '~'] args)) ∧
      args.length = [Json.object [("Integer".toList, .number 1)], .string "Null".toList].length ∧
      List.Forall₂ (fun r a => (Interpreter.parse (fun _ => []) r).res = .ok a)
        [Json.object [("Integer".toList, .number 1)], .string "Null".toList] args :=
  parse_print_record (fun _ => []) ['~', '~']
    [.object [("Integer".toList, .number 1)], .string "Null".toList]
    (by
      intro r hr
      simp only [List.mem_cons, List.mem_singleton, List.mem_nil_iff, or_false] at hr
      rcases hr with h | h <;> subst h
      · exact ⟨.Integer 1, rfl⟩
      · exact ⟨.Null, rfl⟩)

/-! ## Lemmas about decimal numerals -/

theorem digitChar_facts :
    ∀ m, m < 10 → digitValue (Nat.digitChar m) = some m ∧ (Nat.digitChar m).isDigit = true ∧
      (Nat.digitChar m = '0' → m = 0) := by
  decide

theorem readDigits_append (a b : List Char) (acc : Nat) :
    readDigits (a ++ b) acc = (readDigits a acc).bind fun m => readDigits b m := by
  induction a generalizing acc with
  | nil => simp [readDigits]
  | cons c a ih =>
    simp only [List.cons_append, readDigits]
    cases digitValue c with
    | none => simp
    | some d => simpa using ih (acc * 10 + d)

/-- The digits pushed by `Nat.toDigitsCore` in base 10: a nonempty list of digit characters
whose value is `n`, with a leading `0` only for `n = 0`. -/
theorem toDigitsCore_spec :
    ∀ (fuel n : Nat) (ds : List Char), n < fuel →
      ∃ l : List Char, Nat.toDigitsCore 10 fuel n ds = l ++ ds ∧ l ≠ [] ∧
        (∀ c ∈ l, c.isDigit = true) ∧ readDigits l 0 = some n ∧
        (l.head? = some '0' → l = ['0'] ∧ n = 0) := by
  intro fuel
  induction fuel with
  | zero => intro n ds h; omega
  | succ fuel ih =>
    intro n ds h
    have hd := digitChar_facts (n % 10) (Nat.mod_lt _ (by decide))
    rw [Nat.toDigitsCore]
    by_cases h0 : n / 10 = 0
    · have hn : n % 10 = n := Nat.mod_eq_of_lt (by omega)
      rw [hn] at hd
      refine ⟨[Nat.digitChar n], by simp [h0, hn], by simp, ?_, ?_, ?_⟩
      · intro c hc
        rw [List.mem_singleton] at hc
        rw [hc]; exact hd.2.1
      · simp [readDigits, hd.1]
      · intro hh
        have : Nat.digitChar n = '0' := by simpa using hh
        exact ⟨by rw [this], hd.2.2 this⟩
    · obtain ⟨l, hl, hne, hdig, hval, hzero⟩ :=
        ih (n / 10) (Nat.digitChar (n % 10) :: ds) (by omega)
      refine ⟨l ++ [Nat.digitChar (n % 10)], by simp [h0, hl], by simp, ?_, ?_, ?_⟩
      · intro c hc
        rcases List.mem_append.mp hc with hc | hc
        · exact hdig c hc
        · rw [List.mem_singleton] at hc
          rw [hc]; exact hd.2.1
      · rw [readDigits_append, hval]
        simp only [Option.some_bind, readDigits, hd.1]
        congr 1
        omega
      · intro hh
        cases l with
        | nil => exact absurd rfl hne
        | cons c l => exact absurd (hzero (by simpa using hh)).2 h0

theorem toDigits_spec (n : Nat) :
    (Nat.toDigits 10 n) ≠ [] ∧ (∀ c ∈ Nat.toDigits 10 n, c.isDigit = true) ∧
      readDigits (Nat.toDigits 10 n) 0 = some n ∧
      ((Nat.toDigits 10 n).head? = some '0' → Nat.toDigits 10 n = ['0'] ∧ n = 0) := by
  obtain ⟨l, hl, h⟩ := toDigitsCore_spec (n + 1) n [] (Nat.lt_succ_self n)
  rw [List.append_nil] at hl
  rw [Nat.toDigits, hl]
  exact h

theorem canonicalDigits_toDigits (n : Nat) : canonicalDigits (Nat.toDigits 10 n) = true := by
  obtain ⟨hne, hdig, _, hzero⟩ := toDigits_spec n
  unfold canonicalDigits
  simp only [Bool.and_eq_true, Bool.not_eq_true', List.isEmpty_eq_false, ne_eq,
    List.all_eq_true, Bool.or_eq_true, bne_iff_ne, beq_iff_eq]
  refine ⟨⟨hne, hdig⟩, ?_⟩
  by_cases hh : (Nat.toDigits 10 n).head? = some '0'
  · right; rw [(hzero hh).1]; rfl
  · left; exact hh

/-- The model of `std::to_string(int)` gives a canonical decimal numeral that reads back as
the integer. -/
theorem std_to_string_spec (x : Int) :
    canonicalDecimal (std_to_string x) = true ∧ parseDecimal (std_to_string x) = some x := by
  obtain ⟨hne, hdig, hval, hzero⟩ := toDigits_spec x.toNat
  obtain ⟨hne', hdig', hval', hzero'⟩ := toDigits_spec x.natAbs
  unfold std_to_string
  by_cases hx : x < 0
  · simp only [hx, if_true, canonicalDecimal, parseDecimal, hne', if_false, hval',
      canonicalDigits_toDigits, Bool.true_and, bne_iff_ne, ne_eq, Option.map_some']
    refine ⟨?_, ?_⟩
    · intro h
      have := (hzero' (by rw [h]; rfl)).2
      omega
    · have e : -(x.natAbs : Int) = x := by
        rw [Int.ofNat_natAbs_of_nonpos (Int.le_of_lt hx)]; simp
      exact congrArg some e
  · simp only [hx, if_false]
    cases hl : Nat.toDigits 10 x.toNat with
    | nil => exact absurd hl hne
    | cons c cs =>
      have hc : c ≠ '-' := by
        intro e
        have := hdig c (by rw [hl]; exact List.mem_cons_self _ _)
        rw [e] at this
        exact absurd this (by decide)
      rw [← hl]
      have h1 : canonicalDecimal (Nat.toDigits 10 x.toNat) = true := by
        rw [hl]
        simp only [canonicalDecimal, hc, if_false]
        rw [← hl]; exact canonicalDigits_toDigits _
      have h2 : parseDecimal (Nat.toDigits 10 x.toNat) = some x := by
        rw [hl]
        simp only [parseDecimal, hc, if_false]
        rw [← hl, hval]
        have e : (x.toNat : Int) = x := Int.toNat_of_nonneg (Int.not_lt.mp hx)
        exact congrArg some e
      exact ⟨h1, h2⟩

/-! ## Further lemmas about the format scan -/

/-- Induction along the scan: a property of `c :: s` may use the property of `s` and of the
tail of `s`. -/
theorem format_induction {P : List Char → Prop} (hnil : P [])
    (hcons : ∀ c s, P s → P s.tail → P (c :: s)) : ∀ t, P t := by
  have h : ∀ t, P t ∧ P t.tail := by
    intro t
    induction t with
    | nil => exact ⟨hnil, hnil⟩
    | cons c s ih => exact ⟨hcons c s ih.1 ih.2, ih.1⟩
  exact fun t => (h t).1

theorem placeholders_cons_escape (d : Char) (s : List Char) :
    placeholders ('\\' :: d :: s) = placeholders s := by
  simp [placeholders]

theorem placeholders_cons_tilde (s : List Char) :
    placeholders ('~' :: s) = 1 + placeholders s := by
  cases s <;> simp [placeholders]

theorem placeholders_cons_literal (c : Char) (s : List Char) (h1 : c ≠ '\\') (h2 : c ≠ '~') :
    placeholders (c :: s) = placeholders s := by
  cases s <;> simp [placeholders, h1, h2]

theorem scan_single_escape (arguments : List (Option AST)) (j : Nat) :
    AST_Print.scan arguments ['\\'] j = ⟨[], unexpectedCharacter, .ok 1⟩ := rfl

theorem escape_res (c : Char) : (AST_Print.escape c).res = .ok () := by
  unfold AST_Print.escape
  repeat' split
  all_goals rfl

theorem bind_res_ok {α β : Type} (r : Run α) (k : α → Run β) (b : β)
    (h : (r.bind k).res = .ok b) : ∃ a, r.res = .ok a ∧ (k a).res = .ok b := by
  unfold Run.bind at h
  cases hr : r.res with
  | error f => rw [hr] at h; simp at h
  | ok a => rw [hr] at h; exact ⟨a, rfl, h⟩

theorem bind_res_error {α β : Type} (r : Run α) (k : α → Run β) (f : Fault)
    (h : (r.bind k).res = .error f) :
    r.res = .error f ∨ ∃ a, r.res = .ok a ∧ (k a).res = .error f := by
  unfold Run.bind at h
  cases hr : r.res with
  | error g => rw [hr] at h; left; simpa using h
  | ok a => rw [hr] at h; exact Or.inr ⟨a, rfl, h⟩

/-- The placeholder statement reads only the rendered text of the arguments. -/
theorem placeholder_eq_render (arguments : List (Option AST)) (j : Nat) :
    AST_Print.placeholder arguments j =
      match (arguments.map (Option.map AST.to_string)).get? j with
      | none => Run.fault (.outOfBounds j arguments.length)
      | some none => Run.fault .nullDeref
      | some (some s) => Run.cout s := by
  unfold AST_Print.placeholder
  simp only [List.get?_eq_getElem?, List.getElem?_map]
  cases arguments[j]? with
  | none => rfl
  | some o => cases o <;> rfl

/-- With an argument at index `j`, the placeholder statement writes its rendered text, whatever
follows the first arguments. -/
theorem placeholder_of_lt (a : List AST) (b : List (Option AST)) (j : Nat) (h : j < a.length) :
    ∃ node : AST, AST_Print.placeholder (a.map some ++ b) j = Run.cout node.to_string ∧
      AST_Print.placeholder (a.map some) j = Run.cout node.to_string := by
  have h1 : (a.map some ++ b).get? j = some (some (a.get ⟨j, h⟩)) := by
    rw [List.get?_eq_getElem?, List.getElem?_append_left (by simpa using h)]
    simp [List.getElem?_eq_getElem h]
  have h2 : (a.map some).get? j = some (some (a.get ⟨j, h⟩)) := by
    rw [List.get?_eq_getElem?]
    simp [List.getElem?_eq_getElem h]
  refine ⟨a.get ⟨j, h⟩, ?_, ?_⟩
  · unfold AST_Print.placeholder; rw [h1]
  · unfold AST_Print.placeholder; rw [h2]

/-- With at least as many arguments as placeholders left, the scan returns 1 and does not
depend on what follows the first arguments. -/
theorem scan_enough_arguments (a : List AST) (b : List (Option AST)) :
    ∀ (t : List Char) (j : Nat), j + placeholders t ≤ a.length →
      AST_Print.scan (a.map some ++ b) t j = AST_Print.scan (a.map some) t j ∧
      (AST_Print.scan (a.map some) t j).res = .ok 1 := by
  intro t
  induction t using format_induction with
  | hnil => intro j _; exact ⟨rfl, rfl⟩
  | hcons c s ih ihtail =>
    intro j h
    by_cases e1 : c = '\\'
    · subst e1
      cases s with
      | nil => exact ⟨rfl, rfl⟩
      | cons d rest =>
        rw [placeholders_cons_escape] at h
        obtain ⟨h1, h2⟩ := ihtail j h
        rw [scan_cons_escape, scan_cons_escape, List.tail_cons] at *
        rw [h1]
        refine ⟨rfl, ?_⟩
        rw [bind_of_ok _ _ () (escape_res d)]
        exact h2
    · by_cases e2 : c = '~'
      · subst e2
        rw [placeholders_cons_tilde] at h
        obtain ⟨h1, h2⟩ := ih (j + 1) (by omega)
        obtain ⟨node, hp1, hp2⟩ := placeholder_of_lt a b j (by omega)
        rw [scan_cons_tilde, scan_cons_tilde, hp1, hp2, h1]
        refine ⟨rfl, ?_⟩
        rw [cout_bind]
        exact h2
      · rw [placeholders_cons_literal c s e1 e2] at h
        obtain ⟨h1, h2⟩ := ih j h
        rw [scan_cons_literal _ _ _ _ e1 e2, scan_cons_literal _ _ _ _ e1 e2, h1]
        refine ⟨rfl, ?_⟩
        rw [cout_bind]
        exact h2

/-- Whenever the scan returns, it returns 1. -/
theorem scan_res_ok (arguments : List (Option AST)) :
    ∀ (t : List Char) (j : Nat) (v : Int), (AST_Print.scan arguments t j).res = .ok v → v = 1 := by
  intro t
  induction t using format_induction with
  | hnil => intro j v h; exact (Except.ok.inj h).symm
  | hcons c s ih ihtail =>
    intro j v h
    by_cases e1 : c = '\\'
    · subst e1
      cases s with
      | nil => rw [scan_single_escape] at h; exact (Except.ok.inj h).symm
      | cons d rest =>
        rw [scan_cons_escape] at h
        obtain ⟨_, _, h2⟩ := bind_res_ok _ _ _ h
        exact ihtail j v h2
    · by_cases e2 : c = '~'
      · subst e2
        rw [scan_cons_tilde] at h
        obtain ⟨_, _, h2⟩ := bind_res_ok _ _ _ h
        exact ih (j + 1) v h2
      · rw [scan_cons_literal _ _ _ _ e1 e2] at h
        obtain ⟨_, _, h2⟩ := bind_res_ok _ _ _ h
        exact ih j v h2

/-- The scan depends on the arguments only through what the placeholder statement does. -/
theorem scan_congr (args args' : List (Option AST))
    (hp : ∀ j, AST_Print.placeholder args j = AST_Print.placeholder args' j) :
    ∀ (t : List Char) (j : Nat), AST_Print.scan args t j = AST_Print.scan args' t j := by
  intro t
  induction t using format_induction with
  | hnil => intro j; rfl
  | hcons c s ih ihtail =>
    intro j
    by_cases e1 : c = '\\'
    · subst e1
      cases s with
      | nil => rfl
      | cons d rest =>
        rw [scan_cons_escape, scan_cons_escape]
        rw [List.tail_cons] at ihtail
        simp only [ihtail]
    · by_cases e2 : c = '~'
      · subst e2
        rw [scan_cons_tilde, scan_cons_tilde, hp j]
        simp only [ih]
      · rw [scan_cons_literal _ _ _ _ e1 e2, scan_cons_literal _ _ _ _ e1 e2]
        simp only [ih]

/-- One iteration of the loop that returns has moved the template cursor by one or two and the
argument cursor by at most one. -/
theorem body_res (format : List Char) (arguments : List (Option AST)) (i j : Nat)
    (c : Nat × Nat) (h : (AST_Print.body format arguments i j).res = .ok c) :
    (c.1 = i + 1 ∨ c.1 = i + 2) ∧ (c.2 = j ∨ c.2 = j + 1) := by
  unfold AST_Print.body at h
  split at h
  · obtain ⟨_, _, h2⟩ := bind_res_ok _ _ _ h
    have := Except.ok.inj h2
    subst this
    exact ⟨Or.inr rfl, Or.inl rfl⟩
  · split at h
    · obtain ⟨_, _, h2⟩ := bind_res_ok _ _ _ h
      have := Except.ok.inj h2
      subst this
      exact ⟨Or.inl rfl, Or.inr rfl⟩
    · obtain ⟨_, _, h2⟩ := bind_res_ok _ _ _ h
      have := Except.ok.inj h2
      subst this
      exact ⟨Or.inl rfl, Or.inl rfl⟩

/-! ## Lemmas about `Interpreter::parse` -/

theorem parse_object (dump : Json → List Char) (members : List (List Char × Json)) :
    Interpreter.parse dump (.object members) = Interpreter.parseItems dump members := by
  rw [Interpreter.parse]

/-- An entry whose key is no tag is reported and the loop goes on. -/
theorem parseItems_unknown (dump : Json → List Char) (key : List Char) (value : Json)
    (rest : List (List Char × Json)) (h : key ∉ tags) :
    Interpreter.parseItems dump ((key, value) :: rest) =
      (Run.cout (unknownNode key)).bind fun _ => Interpreter.parseItems dump rest := by
  simp only [tags, List.mem_cons, List.mem_singleton, List.mem_nil_iff, or_false, not_or] at h
  obtain ⟨h1, h2, h3, h4⟩ := h
  rw [Interpreter.parseItems]
  simp only [h1, h2, h3, h4, if_false]

/-- An entry whose key is a tag ends the loop: the entries after it play no part. -/
theorem parseItems_tag (dump : Json → List Char) (key : List Char) (value : Json)
    (rest : List (List Char × Json)) (h : key ∈ tags) :
    Interpreter.parseItems dump ((key, value) :: rest) =
      Interpreter.parseItems dump [(key, value)] := by
  simp only [tags, List.mem_cons, List.mem_singleton, List.mem_nil_iff, or_false] at h
  rw [Interpreter.parseItems, Interpreter.parseItems]
  split_ifs <;> first | rfl | (exfalso; tauto)

/-- Entries whose keys are no tags are reported one after the other, in order. -/
theorem parseItems_skip (dump : Json → List Char) (before rest : List (List Char × Json))
    (h : ∀ kv ∈ before, kv.1 ∉ tags) :
    Interpreter.parseItems dump (before ++ rest) =
      ⟨(before.map fun kv => unknownNode kv.1).flatten ++ (Interpreter.parseItems dump rest).out,
        (Interpreter.parseItems dump rest).err, (Interpreter.parseItems dump rest).res⟩ := by
  induction before with
  | nil => simp
  | cons kv before ih =>
    obtain ⟨key, value⟩ := kv
    have hk : key ∉ tags := h (key, value) (List.mem_cons_self _ _)
    have ih' := ih fun kv hkv => h kv (List.mem_cons_of_mem _ hkv)
    rw [List.cons_append, parseItems_unknown dump key value _ hk, cout_bind, ih']
    simp

/-! ## Building well-typed records -/

theorem dumpLines_nil (dump : Json → List Char) : dumpLines dump [] = [] := rfl

theorem dumpLines_cons (dump : Json → List Char) (v : Json) (vs : List Json) :
    dumpLines dump (v :: vs) = dump v ++ ['\n'] ++ dumpLines dump vs := by
  simp [dumpLines]

theorem dumpLines_append (dump : Json → List Char) (vs ws : List Json) :
    dumpLines dump (vs ++ ws) = dumpLines dump vs ++ dumpLines dump ws := by
  simp [dumpLines]

theorem parseIndices_run (n k : Nat) :
    (Interpreter.parseIndices n k).res = .ok () ∧ (Interpreter.parseIndices n k).err = [] := by
  induction n generalizing k with
  | zero => exact ⟨rfl, rfl⟩
  | succ n ih =>
    rw [Interpreter.parseIndices, cout_bind]
    exact ih (k + 1)

/-- A decimal index is never a tag name. -/
theorem toDigits_not_tag (k : Nat) : Nat.toDigits 10 k ∉ tags := by
  intro h
  have hd := (toDigits_spec k).2.1
  simp only [tags, List.mem_cons, List.mem_singleton, List.mem_nil_iff, or_false] at h
  rcases h with h | h | h | h
  · exact absurd (hd 'I' (by rw [h]; decide)) (by decide)
  · exact absurd (hd 'N' (by rw [h]; decide)) (by decide)
  · exact absurd (hd 'B' (by rw [h]; decide)) (by decide)
  · exact absurd (hd 'P' (by rw [h]; decide)) (by decide)

theorem printedItems_of_tag (key : List Char) (value : Json) (rest : List (List Char × Json))
    (h1 : key ≠ "Print".toList) (h2 : key ∈ tags) :
    Json.printedItems ((key, value) :: rest) = [] := by
  rw [Json.printedItems, if_neg h1, if_pos h2]

/-- What `parse` does on a value that is neither the string `"Null"` nor an object: it
returns no node and nothing goes to the error stream. -/
theorem parse_no_entry (dump : Json → List Char) (r : Json)
    (h1 : r ≠ .string "Null".toList) (h2 : ∀ members, r ≠ .object members) :
    (Interpreter.parse dump r).res = .ok none ∧ (Interpreter.parse dump r).err = [] := by
  cases r with
  | null => exact ⟨rfl, rfl⟩
  | boolean b => exact ⟨rfl, rfl⟩
  | number n => exact ⟨rfl, rfl⟩
  | float q => exact ⟨rfl, rfl⟩
  | string s =>
    have hs : s ≠ "Null".toList := fun e => h1 (by rw [e])
    rw [Interpreter.parse, Interpreter.parseScalar, if_neg hs]
    exact ⟨rfl, rfl⟩
  | array elements =>
    obtain ⟨hr, he⟩ := parseIndices_run elements.length 0
    rw [Interpreter.parse, bind_of_ok _ _ () hr, he]
    exact ⟨rfl, rfl⟩
  | object members => exact absurd rfl (h2 members)

/-- The keys of a value that is not an object are never tags. -/
theorem keys_no_tag (r : Json) (h2 : ∀ members, r ≠ .object members) :
    ∀ k ∈ r.keys, k ∉ tags := by
  intro k hk
  cases r with
  | null => simp [Json.keys] at hk
  | boolean b => simp only [Json.keys, List.mem_singleton] at hk; rw [hk]; decide
  | number n => simp only [Json.keys, List.mem_singleton] at hk; rw [hk]; decide
  | float q => simp only [Json.keys, List.mem_singleton] at hk; rw [hk]; decide
  | string s => simp only [Json.keys, List.mem_singleton] at hk; rw [hk]; decide
  | array elements =>
    simp only [Json.keys, List.mem_map] at hk
    obtain ⟨i, _, hi⟩ := hk
    rw [← hi]
    exact toDigits_not_tag i
  | object members => exact absurd rfl (h2 members)

/-- The build of a well-typed value that is not an object. -/
theorem parse_wellTyped_other (dump : Json → List Char) (c : Bool) (r : Json)
    (h2 : ∀ members, r ≠ .object members) (h : r.wellTyped c = true) :
    ∃ o, (Interpreter.parse dump r).res = .ok o ∧ (Interpreter.parse dump r).err = [] ∧
      (o = none ↔ r ≠ .string "Null".toList ∧ ∀ k ∈ r.keys, k ∉ tags) ∧
      (c = true → o ≠ none ∧ (Interpreter.parse dump r).out = dumpLines dump r.printed) := by
  by_cases h1 : r = .string "Null".toList
  · subst h1
    refine ⟨some .Null, rfl, rfl, ?_, fun _ => ⟨by simp, rfl⟩⟩
    constructor
    · intro e; cases e
    · intro e; exact absurd rfl e.1
  · obtain ⟨hres, herr⟩ := parse_no_entry dump r h1 h2
    refine ⟨none, hres, herr, ?_, ?_⟩
    · exact ⟨fun _ => ⟨h1, keys_no_tag r h2⟩, fun _ => rfl⟩
    · intro hc
      subst hc
      cases r with
      | null => simp [Json.wellTyped] at h
      | boolean b => simp [Json.wellTyped] at h
      | number n => simp [Json.wellTyped] at h
      | float q => simp [Json.wellTyped] at h
      | string s =>
        simp only [Json.wellTyped, Bool.not_true, Bool.false_or, decide_eq_true_eq] at h
        exact absurd (by rw [h]) h1
      | array elements => simp [Json.wellTyped] at h
      | object members => exact absurd rfl (h2 members)

mutual
/-- The build of a well-typed record returns; it returns no node exactly when the record is
not the string `"Null"` and none of its keys is a tag; a closed record gives a node and the
build prints the values listed by `Json.printed`. -/
theorem parse_wellTyped (dump : Json → List Char) (c : Bool) :
    ∀ r : Json, r.wellTyped c = true →
      ∃ o, (Interpreter.parse dump r).res = .ok o ∧ (Interpreter.parse dump r).err = [] ∧
        (o = none ↔ r ≠ .string "Null".toList ∧ ∀ k ∈ r.keys, k ∉ tags) ∧
        (c = true → o ≠ none ∧ (Interpreter.parse dump r).out = dumpLines dump r.printed)
  | .null, h => parse_wellTyped_other dump c _ (fun _ e => by cases e) h
  | .boolean _, h => parse_wellTyped_other dump c _ (fun _ e => by cases e) h
  | .number _, h => parse_wellTyped_other dump c _ (fun _ e => by cases e) h
  | .float _, h => parse_wellTyped_other dump c _ (fun _ e => by cases e) h
  | .string _, h => parse_wellTyped_other dump c _ (fun _ e => by cases e) h
  | .array _, h => parse_wellTyped_other dump c _ (fun _ e => by cases e) h
  | .object members, h => by
    rw [Json.wellTyped, Bool.and_eq_true] at h
    obtain ⟨hne, hitems⟩ := h
    obtain ⟨o, hres, herr, hiff, hout⟩ := parseItems_wellTyped dump c members hitems
    rw [parse_object, Json.printed]
    refine ⟨o, hres, herr, ?_, ?_⟩
    · rw [hiff]
      simp only [Json.keys, List.mem_map, ne_eq, reduceCtorEq, not_false_eq_true, true_and]
      constructor
      · rintro hh k ⟨kv, hkv, rfl⟩
        exact hh kv hkv
      · intro hh kv hkv
        exact hh kv.1 ⟨kv, hkv, rfl⟩
    · intro hc
      subst hc
      obtain ⟨hsome, ho⟩ := hout rfl
      refine ⟨?_, ho⟩
      apply hsome
      intro e
      rw [e] at hne
      simp at hne
/-- The loop over the entries of a well-typed mapping. -/
theorem parseItems_wellTyped (dump : Json → List Char) (c : Bool) :
    ∀ ms : List (List Char × Json), Json.wellTypedItems c ms = true →
      ∃ o, (Interpreter.parseItems dump ms).res = .ok o ∧
        (Interpreter.parseItems dump ms).err = [] ∧
        (o = none ↔ ∀ kv ∈ ms, kv.1 ∉ tags) ∧
        (c = true → (ms ≠ [] → o ≠ none) ∧
          (Interpreter.parseItems dump ms).out = dumpLines dump (Json.printedItems ms))
  | [], _ => ⟨none, rfl, rfl, by simp, fun _ => ⟨fun e => absurd rfl e, rfl⟩⟩
  | (key, value) :: rest, h => by
    rw [Json.wellTypedItems, Bool.and_eq_true] at h
    obtain ⟨hk, hrest⟩ := h
    have hsome : ∀ (node : AST), key ∈ tags →
        ((some node = none) ↔ ∀ kv ∈ (key, value) :: rest, kv.1 ∉ tags) := by
      intro node hkey
      constructor
      · intro e; cases e
      · intro hh; exact absurd hkey (hh (key, value) (List.mem_cons_self _ _))
    by_cases e1 : key = "Integer".toList
    · rw [if_pos e1] at hk
      have hkey : key ∈ tags := by rw [e1]; decide
      have hp : key ≠ "Print".toList := by rw [e1]; decide
      cases value with
      | number n =>
        have hrun : Interpreter.parseItems dump ((key, .number n) :: rest) =
            ⟨[], [], .ok (some (.Integer (wrap32 n)))⟩ := by
          rw [Interpreter.parseItems, if_pos e1]; rfl
        rw [hrun, printedItems_of_tag _ _ _ hp hkey]
        exact ⟨_, rfl, rfl, hsome _ hkey, fun _ => ⟨fun _ => by simp, rfl⟩⟩
      | _ => simp [Json.isNumber] at hk
    · rw [if_neg e1] at hk
      by_cases e2 : key = "Null".toList
      · have hkey : key ∈ tags := by rw [e2]; decide
        have hp : key ≠ "Print".toList := by rw [e2]; decide
        have hrun : Interpreter.parseItems dump ((key, value) :: rest) =
            ⟨[], [], .ok (some .Null)⟩ := by
          rw [Interpreter.parseItems, if_neg e1, if_pos e2]; rfl
        rw [hrun, printedItems_of_tag _ _ _ hp hkey]
        exact ⟨_, rfl, rfl, hsome _ hkey, fun _ => ⟨fun _ => by simp, rfl⟩⟩
      · rw [if_neg e2] at hk
        by_cases e3 : key = "Boolean".toList
        · rw [if_pos e3] at hk
          have hkey : key ∈ tags := by rw [e3]; decide
          have hp : key ≠ "Print".toList := by rw [e3]; decide
          cases value with
          | boolean b =>
            have hrun : Interpreter.parseItems dump ((key, .boolean b) :: rest) =
                ⟨[], [], .ok (some (.Bool b))⟩ := by
              rw [Interpreter.parseItems, if_neg e1, if_neg e2, if_pos e3]; rfl
            rw [hrun, printedItems_of_tag _ _ _ hp hkey]
            exact ⟨_, rfl, rfl, hsome _ hkey, fun _ => ⟨fun _ => by simp, rfl⟩⟩
          | _ => simp [Json.isBoolean] at hk
        · rw [if_neg e3] at hk
          by_cases e4 : key = "Print".toList
          · rw [if_pos e4] at hk
            have hkey : key ∈ tags := by rw [e4]; decide
            obtain ⟨node, hres, herr, hout⟩ := parsePrint_wellTyped dump c value hk
            have hrun : Interpreter.parseItems dump ((key, value) :: rest) =
                Interpreter.parsePrint dump value := by
              rw [Interpreter.parseItems, if_neg e1, if_neg e2, if_neg e3, if_pos e4]
            rw [hrun, Json.printedItems, if_pos e4]
            exact ⟨_, hres, herr, hsome _ hkey, fun hc => ⟨fun _ => by simp, hout hc⟩⟩
          · rw [if_neg e4] at hk
            have hc : c = false := by simpa using hk
            have hkey : key ∉ tags := by
              simp only [tags, List.mem_cons, List.mem_singleton, List.mem_nil_iff, or_false,
                not_or]
              exact ⟨e1, e2, e3, e4⟩
            obtain ⟨o, hres, herr, hiff, _⟩ := parseItems_wellTyped dump c rest hrest
            rw [parseItems_unknown dump key value rest hkey, cout_bind]
            refine ⟨o, hres, herr, ?_, ?_⟩
            · rw [hiff]
              constructor
              · intro hh kv hkv
                rcases List.mem_cons.mp hkv with e | hm
                · rw [e]; exact hkey
                · exact hh kv hm
              · intro hh kv hkv
                exact hh kv (List.mem_cons_of_mem _ hkv)
            · intro hc'
              rw [hc] at hc'
              cases hc'
/-- The `"Print"` branch for a well-typed payload. -/
theorem parsePrint_wellTyped (dump : Json → List Char) (c : Bool) :
    ∀ v : Json, Json.wellTypedPrint c v = true →
      ∃ node, (Interpreter.parsePrint dump v).res = .ok (some node) ∧
        (Interpreter.parsePrint dump v).err = [] ∧
        (c = true →
          (Interpreter.parsePrint dump v).out = dumpLines dump (Json.printedPrint v))
  | .null, h => by simp [Json.wellTypedPrint] at h
  | .boolean _, h => by simp [Json.wellTypedPrint] at h
  | .number _, h => by simp [Json.wellTypedPrint] at h
  | .float _, h => by simp [Json.wellTypedPrint] at h
  | .string _, h => by simp [Json.wellTypedPrint] at h
  | .array _, h => by simp [Json.wellTypedPrint] at h
  | .object fields, h => by
    rw [Json.wellTypedPrint, Bool.and_eq_true] at h
    obtain ⟨hf, hm⟩ := h
    obtain ⟨args, hres, herr, hout⟩ := parseMember_wellTyped dump c fields hm
    rw [Interpreter.parsePrint, bind_of_ok _ _ args hres, Json.printedPrint]
    cases hfmt : Json.member "format".toList fields with
    | string s =>
      refine ⟨.Print s args, rfl, ?_, ?_⟩
      · simp [herr, Run.lift, Run.bind, Run.ret, Json.get_string]
      · intro hc
        simp [(hout hc).1, Run.lift, Run.bind, Run.ret, Json.get_string]
    | _ => rw [hfmt] at hf; simp [Json.isString] at hf
/-- The argument loop for the fields of a well-typed Print payload. -/
theorem parseMember_wellTyped (dump : Json → List Char) (c : Bool) :
    ∀ fs : List (List Char × Json), Json.wellTypedMember c fs = true →
      ∃ args, (Interpreter.parseMember dump fs).res = .ok args ∧
        (Interpreter.parseMember dump fs).err = [] ∧
        (c = true →
          (Interpreter.parseMember dump fs).out = dumpLines dump (Json.printedMember fs) ∧
          ∀ a ∈ args, a ≠ none)
  | [], h => by simp [Json.wellTypedMember] at h
  | (k, v) :: rest, h => by
    rw [Json.wellTypedMember] at h
    rw [Interpreter.parseMember, Json.printedMember]
    by_cases e : k = "arguments".toList
    · rw [if_pos e] at h ⊢
      rw [if_pos e]
      exact parseElements_wellTyped dump c v h
    · rw [if_neg e] at h ⊢
      rw [if_neg e]
      exact parseMember_wellTyped dump c rest h
/-- The loop over the elements of a well-typed array of records. -/
theorem parseElements_wellTyped (dump : Json → List Char) (c : Bool) :
    ∀ v : Json, Json.wellTypedArray c v = true →
      ∃ args, (Interpreter.parseElements dump v).res = .ok args ∧
        (Interpreter.parseElements dump v).err = [] ∧
        (c = true →
          (Interpreter.parseElements dump v).out = dumpLines dump (Json.printedArray v) ∧
          ∀ a ∈ args, a ≠ none)
  | .null, h => by simp [Json.wellTypedArray] at h
  | .boolean _, h => by simp [Json.wellTypedArray] at h
  | .number _, h => by simp [Json.wellTypedArray] at h
  | .float _, h => by simp [Json.wellTypedArray] at h
  | .string _, h => by simp [Json.wellTypedArray] at h
  | .object _, h => by simp [Json.wellTypedArray] at h
  | .array elements, h => by
    rw [Json.wellTypedArray] at h
    rw [Interpreter.parseElements, Json.printedArray]
    exact parseList_wellTyped dump c elements h
/-- The loop over a list of well-typed records. -/
theorem parseList_wellTyped (dump : Json → List Char) (c : Bool) :
    ∀ rs : List Json, Json.wellTypedList c rs = true →
      ∃ args, (Interpreter.parseList dump rs).res = .ok args ∧
        (Interpreter.parseList dump rs).err = [] ∧
        (c = true →
          (Interpreter.parseList dump rs).out = dumpLines dump (Json.printedList rs) ∧
          ∀ a ∈ args, a ≠ none)
  | [], _ => ⟨[], rfl, rfl, fun _ => ⟨rfl, by simp⟩⟩
  | r :: rs, h => by
    rw [Json.wellTypedList, Bool.and_eq_true] at h
    obtain ⟨hr, hrs⟩ := h
    obtain ⟨o, hres, herr, _, hout⟩ := parse_wellTyped dump c r hr
    obtain ⟨args, hres', herr', hout'⟩ := parseList_wellTyped dump c rs hrs
    rw [Interpreter.parseList, cout_bind, bind_of_ok _ _ o hres, bind_of_ok _ _ args hres',
      Json.printedList]
    refine ⟨o :: args, rfl, ?_, ?_⟩
    · simp [herr, herr', Run.ret]
    · intro hc
      obtain ⟨h1, h2⟩ := hout hc
      obtain ⟨h3, h4⟩ := hout' hc
      constructor
      · simp [h2, h3, Run.ret, dumpLines_cons, dumpLines_append]
      · intro a ha
        rcases List.mem_cons.mp ha with e | hm
        · rw [e]; exact h1
        · exact h4 a hm
end

theorem bind_ret_out {α β : Type} (r : Run α) (b : β) :
    (r.bind fun _ => Run.ret b).out = r.out := by
  unfold Run.bind
  cases r.res <;> simp [Run.ret]

/-! ## Claims about rendering an Integer -/

/-- Claim C11: for every 32-bit signed integer `x`, `AST_Integer(x).to_string()` is the
canonical decimal string of `x` (an optional leading `-`, no leading zero, no `+`), parsing it
as a decimal integer gives back `x`, and `to_string` is injective on Integer nodes. -/
theorem integer_render_round_trip (x : Int) (_hx : inInt32 x) :
    (AST.Integer x).to_string = (toString x).toList ∧
    canonicalDecimal (AST.Integer x).to_string = true ∧
    parseDecimal (AST.Integer x).to_string = some x ∧
    ∀ y : Int, inInt32 y → (AST.Integer y).to_string = (AST.Integer x).to_string → y = x := by
  refine ⟨std_to_string_eq_toString x, (std_to_string_spec x).1, (std_to_string_spec x).2, ?_⟩
  intro y _ hxy
  have h1 := (std_to_string_spec y).2
  have h2 := (std_to_string_spec x).2
  simp only [AST.to_string] at hxy
  rw [hxy, h2] at h1
  exact (Option.some.inj h1).symm

/-- Witness for C11: the minimum value `-2147483648`. -/
theorem integer_render_round_trip_witness :
    (AST.Integer (-2147483648)).to_string = (toString (-2147483648 : Int)).toList ∧
    canonicalDecimal (AST.Integer (-2147483648)).to_string = true ∧
    parseDecimal (AST.Integer (-2147483648)).to_string = some (-2147483648) ∧
    ∀ y : Int, inInt32 y →
      (AST.Integer y).to_string = (AST.Integer (-2147483648)).to_string → y = -2147483648 :=
  integer_render_round_trip (-2147483648) (by decide)

/-! ## Further claims about `AST_Print::eval` and the node model -/

/-- Claim C12: for a format string `t` and argument lists `a`, `b` where `a` has at least as
many arguments as `t` has unescaped placeholders, evaluating `Print(t, a ++ b)` returns 1 and
writes exactly what `Print(t, a)` writes: the trailing arguments are ignored. -/
theorem trailing_arguments_ignored (t : List Char) (a : List AST) (b : List (Option AST))
    (h : placeholders t ≤ a.length) :
    AST_Print.eval t (a.map some ++ b) = AST_Print.eval t (a.map some) ∧
    (AST_Print.eval t (a.map some ++ b)).res = .ok 1 := by
  have hs := scan_enough_arguments a b t 0 (by omega)
  rw [eval_eq_scan, eval_eq_scan, hs.1]
  exact ⟨rfl, hs.2⟩

/-- Witness for C12: the format `x~` with the arguments `[Integer(3)]` and two more. -/
theorem trailing_arguments_ignored_witness :
    AST_Print.eval ['x', '~'] [some (.Integer 3), some .Null, none] =
      AST_Print.eval ['x', '~'] [some (.Integer 3)] ∧
    (AST_Print.eval ['x', '~'] [some (.Integer 3), some .Null, none]).res = .ok 1 :=
  trailing_arguments_ignored ['x', '~'] [.Integer 3] [some .Null, none] (by decide)

/-- Claim C13: `eval` of Null returns 0, of `Integer(x)` returns `x`, of `Boolean(b)` returns
1 for true and 0 for false; `eval` of a Print node returns 1 whenever it completes, and it
completes when the arguments cover the placeholders (malformed escapes included); `eval` of a
Sequence returns 1 whenever it completes, and it completes when its children are nodes whose
evaluations complete. -/
theorem eval_results_per_variant :
    AST.Null.eval = Run.ret 0 ∧
    (∀ x : Int, (AST.Integer x).eval = Run.ret x) ∧
    (∀ b : Bool, (AST.Bool b).eval = Run.ret (if b then 1 else 0)) ∧
    (∀ (f : List Char) (args : List (Option AST)) (v : Int),
      (AST.Print f args).eval.res = .ok v → v = 1) ∧
    (∀ (f : List Char) (a : List AST), placeholders f ≤ a.length →
      (AST.Print f (a.map some)).eval.res = .ok 1) ∧
    (∀ (nodes : List (Option AST)) (v : Int), (AST.Top nodes).eval.res = .ok v → v = 1) ∧
    (∀ children : List AST, (∀ c ∈ children, ∃ v, c.eval.res = .ok v) →
      (AST.Top (children.map some)).eval.res = .ok 1) := by
  refine ⟨rfl, fun _ => rfl, fun _ => rfl, ?_, ?_, ?_, ?_⟩
  · intro f args v h
    rw [AST.eval, eval_eq_scan] at h
    exact scan_res_ok args f 0 v h
  · intro f a h
    have hs := scan_enough_arguments a [] f 0 (by omega)
    rw [AST.eval, eval_eq_scan]
    exact hs.2
  · intro nodes v h
    rw [AST.eval] at h
    obtain ⟨_, _, h2⟩ := bind_res_ok _ _ _ h
    exact (Except.ok.inj h2).symm
  · intro children h
    rw [AST.eval, evalNodes_of_valid children h]
    rfl

/-- Witness for C13: a Print node whose format is the malformed escape `\x` followed by a
placeholder returns 1. -/
theorem eval_results_per_variant_witness :
    (AST.Print ['\\', 'x', '~'] [some (.Bool true)]).eval.res = .ok 1 ∧ (1 : Int) = 1 :=
  ⟨eval_results_per_variant.2.2.2.2.1 ['\\', 'x', '~'] [.Bool true] (by decide),
   eval_results_per_variant.2.2.2.1 ['\\', 'x', '~'] [some (.Bool true)] 1 rfl⟩

/-- Claim C14: `to_string` of `Boolean(true)` is `true`, of `Boolean(false)` is `false`, and
of Null is `null`. -/
theorem render_of_constants :
    (AST.Bool true).to_string = ['t', 'r', 'u', 'e'] ∧
    (AST.Bool false).to_string = ['f', 'a', 'l', 's', 'e'] ∧
    AST.Null.to_string = ['n', 'u', 'l', 'l'] :=
  ⟨rfl, rfl, rfl⟩

/-! ## Evaluation leaves the objects unchanged -/

theorem Run.bind_ret_map {α β : Type} (r : Run α) (f : α → β) :
    (r.bind fun a => Run.ret (f a)) = r.map f := by
  obtain ⟨o, e, res⟩ := r
  cases res <;> simp [Run.bind, Run.map, Run.ret, Except.map]

theorem Run.map_bind {α β γ : Type} (r : Run α) (k : α → Run β) (f : β → γ) :
    (r.bind k).map f = r.bind fun a => (k a).map f := by
  obtain ⟨o, e, res⟩ := r
  cases res <;> simp [Run.bind, Run.map, Except.map]

theorem Run.bind_map_left {α β γ : Type} (r : Run α) (g : α → β) (k : β → Run γ) :
    (r.map g).bind k = r.bind fun a => k (g a) := by
  obtain ⟨o, e, res⟩ := r
  cases res <;> simp [Run.bind, Run.map, Except.map]

theorem to_stringS_eq (node : AST) : node.to_stringS = (node.to_string, node) := by
  cases node <;> rfl

theorem set_of_get? {α : Type} (l : List α) (j : Nat) (x : α) (h : l.get? j = some x) :
    l.set j x = l := by
  induction l generalizing j with
  | nil => rfl
  | cons a l ih =>
    cases j with
    | zero =>
      have : a = x := by simpa using h
      rw [this]; rfl
    | succ j =>
      have h' : l.get? j = some x := by simpa using h
      simp [List.set, ih j h']

/-- The placeholder statement on the frame writes what `AST_Print.placeholder` writes and only
increments `j`: the argument objects are left as they were. -/
theorem placeholderS_eq (s : PrintFrame) :
    AST_Print.placeholderS s =
      (AST_Print.placeholder s.arguments s.j).map fun _ =>
        ⟨s.format, s.arguments, s.i, s.j + 1⟩ := by
  unfold AST_Print.placeholderS AST_Print.placeholder
  cases h : s.arguments.get? s.j with
  | none => rfl
  | some o =>
    cases o with
    | none => rfl
    | some node =>
      simp only [to_stringS_eq, set_of_get? _ _ _ h]
      exact Run.bind_ret_map _ _

/-- One iteration on the frame writes what `AST_Print.body` writes and only moves the cursors:
the fields `format` and `arguments` are left as they were. -/
theorem bodyS_eq (s : PrintFrame) :
    AST_Print.bodyS s =
      (AST_Print.body s.format s.arguments s.i s.j).map fun c =>
        ⟨s.format, s.arguments, c.1, c.2⟩ := by
  unfold AST_Print.bodyS AST_Print.body
  split
  · rw [Run.map_bind]; rfl
  · split
    · rw [placeholderS_eq, Run.bind_map_left, Run.map_bind]; rfl
    · rw [Run.map_bind]; rfl

/-- The loop on the frame returns what `AST_Print.loop` returns and ends with the fields
`format` and `arguments` it started with. -/
theorem loopS_eq :
    ∀ (fuel : Nat) (s : PrintFrame),
      (AST_Print.loopS fuel s).map (fun r => (r.1, r.2.format, r.2.arguments)) =
        (AST_Print.loop s.format s.arguments fuel s.i s.j).map fun v =>
          (v, s.format, s.arguments) := by
  intro fuel
  induction fuel with
  | zero =>
    intro s
    rw [AST_Print.loopS, AST_Print.loop]
    split <;> rfl
  | succ fuel ih =>
    intro s
    rw [AST_Print.loopS, AST_Print.loop]
    split
    · rw [bodyS_eq, Run.bind_map_left, Run.map_bind, Run.map_bind]
      congr 1
      funext c
      exact ih ⟨s.format, s.arguments, c.1, c.2⟩
    · rfl

/-- The function `AST_Print::eval` returns what `AST_Print.eval` returns and leaves the Print
object as it was. -/
theorem printS_eq (format : List Char) (arguments : List (Option AST)) :
    AST_Print.evalS format arguments =
      (AST_Print.eval format arguments).map fun v => (v, .Print format arguments) := by
  have h := loopS_eq format.length ⟨format, arguments, 0, 0⟩
  have e : AST_Print.evalS format arguments =
      ((AST_Print.loopS format.length ⟨format, arguments, 0, 0⟩).map
        fun r => (r.1, r.2.format, r.2.arguments)).bind
        fun p => Run.ret (p.1, AST.Print p.2.1 p.2.2) := by
    rw [Run.bind_map_left]; rfl
  rw [e, h, Run.bind_map_left]
  exact Run.bind_ret_map _ _

mutual
/-- The virtual `eval` returns what `AST.eval` returns and leaves the object, with everything
it owns, as it was. -/
theorem evalS_eq : ∀ t : AST, AST.evalS t = (AST.eval t).map fun v => (v, t)
  | .Null => rfl
  | .Integer _ => rfl
  | .Bool _ => rfl
  | .Print format arguments => by
    rw [AST.evalS, AST.eval]
    exact printS_eq format arguments
  | .Top nodes => by
    rw [AST.evalS, AST.eval, evalNodesS_eq nodes, Run.bind_map_left, Run.map_bind]
    rfl
/-- The loop of `AST_Top::eval` leaves every child as it was. -/
theorem evalNodesS_eq :
    ∀ nodes : List (Option AST),
      AST_Top.evalNodesS nodes = (AST_Top.evalNodes nodes).map fun _ => nodes
  | [] => rfl
  | none :: _ => rfl
  | some node :: rest => by
    rw [AST_Top.evalNodesS, AST_Top.evalNodes, evalS_eq node, evalNodesS_eq rest,
      Run.bind_map_left, Run.map_bind]
    congr 1
    funext v
    rw [Run.bind_map_left]
    exact Run.bind_ret_map _ _
end

/-- Claim C16: `eval` changes no field of any node: when the evaluation of a tree completes,
the tree after the call is the tree before the call; it writes and returns what `AST.eval`
gives; and evaluating the tree that the first evaluation left writes the same text again and
returns the same result. -/
theorem reevaluation_is_idempotent (t : AST) (v : Int) (t' : AST)
    (h : (AST.evalS t).res = .ok (v, t')) :
    t' = t ∧
    (AST.evalS t).out = t.eval.out ∧ (AST.evalS t).err = t.eval.err ∧ t.eval.res = .ok v ∧
    (AST.evalS t').out = (AST.evalS t).out ∧ (AST.evalS t').res = .ok (v, t') ∧
    ((AST.evalS t).bind fun r1 => (AST.evalS r1.2).bind fun r2 => Run.ret (r1.1, r2.1)) =
      ⟨(AST.evalS t).out ++ (AST.evalS t).out, (AST.evalS t).err ++ (AST.evalS t).err,
        .ok (v, v)⟩ := by
  have e := evalS_eq t
  have ht : t' = t ∧ t.eval.res = .ok v := by
    rw [e] at h
    simp only [Run.map] at h
    cases hr : t.eval.res with
    | error f => rw [hr] at h; cases h
    | ok w =>
      rw [hr] at h
      have h' : (w, t) = (v, t') := Except.ok.inj h
      have h1 : w = v := congrArg Prod.fst h'
      have h2 : t = t' := congrArg Prod.snd h'
      exact ⟨h2.symm, by rw [h1]⟩
  obtain ⟨ht, hv⟩ := ht
  subst ht
  refine ⟨rfl, by rw [e]; rfl, by rw [e]; rfl, hv, rfl, h, ?_⟩
  rw [bind_of_ok _ _ (v, t') h, bind_of_ok _ _ (v, t') h]
  simp [Run.ret]

/-- Witness for C16: a Sequence with a Print node that consumes an argument, and an
Integer. -/
theorem reevaluation_is_idempotent_witness :
    AST.Top [some (.Print ['a', '~'] [some (.Integer 1)]), some (.Integer 5)] =
      AST.Top [some (.Print ['a', '~'] [some (.Integer 1)]), some (.Integer 5)] ∧
    (AST.evalS (.Top [some (.Print ['a', '~'] [some (.Integer 1)]), some (.Integer 5)])).out =
      ['a', '1'] ∧
    (AST.evalS (.Top [some (.Print ['a', '~'] [some (.Integer 1)]), some (.Integer 5)])).bind
      (fun r1 => (AST.evalS r1.2).bind fun r2 => Run.ret (r1.1, r2.1)) =
      ⟨['a', '1', 'a', '1'], [], .ok (1, 1)⟩ :=
  ⟨(reevaluation_is_idempotent
      (.Top [some (.Print ['a', '~'] [some (.Integer 1)]), some (.Integer 5)]) 1
      (.Top [some (.Print ['a', '~'] [some (.Integer 1)]), some (.Integer 5)]) rfl).1,
   rfl,
   (reevaluation_is_idempotent
      (.Top [some (.Print ['a', '~'] [some (.Integer 1)]), some (.Integer 5)]) 1
      (.Top [some (.Print ['a', '~'] [some (.Integer 1)]), some (.Integer 5)]) rfl).2.2.2.2.2.2⟩

/-- Claim C18: the formatter only renders the argument a placeholder consumes.  Print and
Sequence nodes render as the empty string, so a Print node `P` used as an argument contributes
the empty string at its placeholder, and the evaluation of the outer Print does not depend on
the format string or the arguments of `P`. -/
theorem statement_nodes_render_empty :
    (∀ (f : List Char) (a : List (Option AST)), (AST.Print f a).to_string = []) ∧
    (∀ nodes : List (Option AST), (AST.Top nodes).to_string = []) ∧
    (∀ (before after a : List (Option AST)) (f : List Char),
      AST_Print.placeholder (before ++ some (.Print f a) :: after) before.length =
        Run.cout []) ∧
    (∀ (format f : List Char) (before after a : List (Option AST)),
      AST_Print.eval format (before ++ some (.Print f a) :: after) =
        AST_Print.eval format (before ++ some (.Print [] []) :: after)) := by
  refine ⟨fun _ _ => rfl, fun _ => rfl, fun before after a f => ?_, ?_⟩
  · rw [placeholder_some]; rfl
  · intro format f before after a
    rw [eval_eq_scan, eval_eq_scan]
    apply scan_congr
    intro j
    rw [placeholder_eq_render, placeholder_eq_render]
    simp [AST.to_string]

/-- Claim C19: with at least as many arguments as unescaped placeholders the scan loop of
`AST_Print::eval` terminates: every budget of at least `format.size()` iterations gives the
same run, which returns 1; an iteration that returns has advanced the template cursor by 1 or
2; and a backslash in the last position writes only the diagnostic, moves the cursor past the
end, and ends the loop. -/
theorem print_scan_terminates (format : List Char) (a : List AST)
    (h : placeholders format ≤ a.length) :
    (∀ fuel : Nat, format.length ≤ fuel →
      AST_Print.loop format (a.map some) fuel 0 0 = AST_Print.eval format (a.map some)) ∧
    (AST_Print.eval format (a.map some)).res = .ok 1 ∧
    (∀ (i j : Nat) (c : Nat × Nat), (AST_Print.body format (a.map some) i j).res = .ok c →
      c.1 = i + 1 ∨ c.1 = i + 2) ∧
    (∀ i j fuel : Nat, i + 1 = format.length → format.get? i = some '\\' →
      AST_Print.body format (a.map some) i j = ⟨[], unexpectedCharacter, .ok (i + 2, j)⟩ ∧
      AST_Print.loop format (a.map some) fuel (i + 2) j = Run.ret 1) := by
  refine ⟨?_, ?_, ?_, ?_⟩
  · intro fuel hf
    have h1 := loop_eq_scan (a.map some) fuel [] format 0 hf
    simp only [List.nil_append, List.length_nil] at h1
    rw [h1, eval_eq_scan]
  · have hs := scan_enough_arguments a [] format 0 (by omega)
    rw [eval_eq_scan]
    exact hs.2
  · intro i j c hc
    exact (body_res format (a.map some) i j c hc).1
  · intro i j fuel hi hget
    have e0 := charAt_of_get? format i _ hget
    have e1 : charAt format (i + 1) = Char.ofNat 0 := by
      unfold charAt
      rw [List.getD_eq_default _ _ (by omega)]
    refine ⟨?_, loop_of_le _ _ _ _ _ (by omega)⟩
    unfold AST_Print.body
    rw [e0, e1]
    rfl

/-- Witness for C19: the format `a\` with no argument. -/
theorem print_scan_terminates_witness :
    (∀ fuel : Nat, ['a', '\\'].length ≤ fuel →
      AST_Print.loop ['a', '\\'] ([].map some) fuel 0 0 =
        AST_Print.eval ['a', '\\'] ([].map some)) ∧
    (AST_Print.eval ['a', '\\'] ([].map some)).res = .ok 1 ∧
    (∀ (i j : Nat) (c : Nat × Nat),
      (AST_Print.body ['a', '\\'] ([].map some) i j).res = .ok c → c.1 = i + 1 ∨ c.1 = i + 2) ∧
    (∀ i j fuel : Nat, i + 1 = ['a', '\\'].length → ['a', '\\'].get? i = some '\\' →
      AST_Print.body ['a', '\\'] ([].map some) i j =
        ⟨[], unexpectedCharacter, .ok (i + 2, j)⟩ ∧
      AST_Print.loop ['a', '\\'] ([].map some) fuel (i + 2) j = Run.ret 1) :=
  print_scan_terminates ['a', '\\'] [] (by decide)

/-! ## Further claims about building the tree -/

/-- Claim C17: for a mapping record whose entries, in iteration order, are entries with
unrecognized keys, then an entry `(key, value)` whose key is a tag, then any entries, `parse`
reports each unrecognized key in order and then does exactly what it does for the record
`{key: value}` alone: the later entries play no part and the earlier ones do not fail the
build. -/
theorem parse_dispatches_on_first_tag (dump : Json → List Char)
    (before after : List (List Char × Json)) (key : List Char) (value : Json)
    (hb : ∀ kv ∈ before, kv.1 ∉ tags) (hk : key ∈ tags) :
    Interpreter.parse dump (.object (before ++ (key, value) :: after)) =
      ⟨(before.map fun kv => unknownNode kv.1).flatten ++
          (Interpreter.parse dump (.object [(key, value)])).out,
        (Interpreter.parse dump (.object [(key, value)])).err,
        (Interpreter.parse dump (.object [(key, value)])).res⟩ := by
  rw [parse_object, parse_object, parseItems_skip dump before _ hb,
    parseItems_tag dump key value after hk]

/-- Witness for C17: the record `{"Aaa": 1, "Boolean": true, "Zzz": 2}`. -/
theorem parse_dispatches_on_first_tag_witness :
    Interpreter.parse (fun _ => [])
      (.object ([("Aaa".toList, .number 1)] ++ ("Boolean".toList, .boolean true) ::
        [("Zzz".toList, .number 2)])) =
      ⟨([("Aaa".toList, Json.number 1)].map fun kv => unknownNode kv.1).flatten ++
          (Interpreter.parse (fun _ => [])
            (.object [("Boolean".toList, .boolean true)])).out,
        (Interpreter.parse (fun _ => []) (.object [("Boolean".toList, .boolean true)])).err,
        (Interpreter.parse (fun _ => []) (.object [("Boolean".toList, .boolean true)])).res⟩ :=
  parse_dispatches_on_first_tag (fun _ => []) [("Aaa".toList, .number 1)]
    [("Zzz".toList, .number 2)] "Boolean".toList (.boolean true) (by decide) (by decide)

/-- Claim C15 as stated fails: for the document
`{"Top": [{"Print": {"arguments": [], "format": "hi"}}]}`, whose only record has a recognized
tag, the constructor writes to standard output whatever the serializer is (at least the two
`std::endl`), and the text after build and evaluation is not just the `hi` of the Print
node. -/
theorem build_writes_output_counterexample :
    (¬ ∃ dump : Json → List Char,
      (Interpreter.Interpreter dump
        (.object [("Top".toList, .array [.object [("Print".toList,
          .object [("arguments".toList, .array []),
                   ("format".toList, .string ['h', 'i'])])]])])).out = []) ∧
    (¬ ∃ dump : Json → List Char,
      (program dump
        (.object [("Top".toList, .array [.object [("Print".toList,
          .object [("arguments".toList, .array []),
                   ("format".toList, .string ['h', 'i'])])]])])).out = ['h', 'i']) := by
  constructor
  · rintro ⟨dump, h⟩
    have h' := congrArg List.length h
    simp [Interpreter.Interpreter, Interpreter.parseElements, Interpreter.parseList,
      Interpreter.parse, Interpreter.parseItems, Interpreter.parsePrint,
      Interpreter.parseMember, Json.at, Json.member, Json.get_string, Run.bind, Run.lift,
      Run.cout, Run.ret] at h'
  · rintro ⟨dump, h⟩
    have h' := congrArg List.length h
    simp [program, Interpreter.interpret, Interpreter.Interpreter, Interpreter.parseElements,
      Interpreter.parseList, Interpreter.parse, Interpreter.parseItems,
      Interpreter.parsePrint, Interpreter.parseMember, Json.at, Json.member, Json.get_string,
      AST.eval, AST_Top.evalNodes, AST_Print.eval, AST_Print.loop, AST_Print.body, charAt,
      Run.bind, Run.lift, Run.cout, Run.ret] at h'
    omega

/-- Claim C15, amended: for a document `{"Top": [records]}` whose records are closed and well
typed, the constructor returns a Sequence of nodes (no null entry), writes nothing to the error
stream, and writes to standard output exactly one line per JSON value it visits: the `"Top"`
value, then each record followed by the arguments of a Print record.  The text on standard
output after build and evaluation is that build text followed by the text written by the
evaluation of the tree. -/
theorem build_prints_visited_values (dump : Json → List Char) (rs : List Json)
    (h : Json.wellTypedList true rs = true) :
    ∃ data : List (Option AST),
      Interpreter.Interpreter dump (.object [("Top".toList, .array rs)]) =
        ⟨dumpLines dump (.array rs :: Json.printedList rs), [], .ok (.Top data)⟩ ∧
      (∀ d ∈ data, d ≠ none) ∧
      (program dump (.object [("Top".toList, .array rs)])).out =
        dumpLines dump (.array rs :: Json.printedList rs) ++ (AST.Top data).eval.out := by
  obtain ⟨data, hres, herr, hout⟩ := parseList_wellTyped dump true rs h
  obtain ⟨hout, hnodes⟩ := hout rfl
  have hbuild : Interpreter.Interpreter dump (.object [("Top".toList, .array rs)]) =
      ⟨dumpLines dump (.array rs :: Json.printedList rs), [], .ok (.Top data)⟩ := by
    have e : Interpreter.Interpreter dump (.object [("Top".toList, .array rs)]) =
        (Run.cout (dump (.array rs) ++ ['\n'])).bind fun _ =>
          (Interpreter.parseList dump rs).bind fun data => Run.ret (.Top data) := rfl
    rw [e, cout_bind, bind_of_ok _ _ data hres, hout, herr, dumpLines_cons]
    simp [Run.ret]
  refine ⟨data, hbuild, hnodes, ?_⟩
  rw [program, hbuild, bind_of_ok _ _ (AST.Top data) rfl]
  simp only []
  rw [bind_ret_out, Interpreter.interpret, bind_ret_out]

/-- Witness for the amended C15: the document
`{"Top": [{"Print": {"arguments": ["Null"], "format": "~"}}]}`. -/
theorem build_prints_visited_values_witness :
    ∃ data : List (Option AST),
      Interpreter.Interpreter (fun _ => ['j'])
          (.object [("Top".toList, .array [.object [("Print".toList,
            .object [("arguments".toList, .array [.string "Null".toList]),
                     ("format".toList, .string ['~'])])]])]) =
        ⟨dumpLines (fun _ => ['j'])
          (.array [.object [("Print".toList,
            .object [("arguments".toList, .array [.string "Null".toList]),
                     ("format".toList, .string ['~'])])]] ::
            Json.printedList [.object [("Print".toList,
              .object [("arguments".toList, .array [.string "Null".toList]),
                       ("format".toList, .string ['~'])])]]), [], .ok (.Top data)⟩ ∧
      (∀ d ∈ data, d ≠ none) ∧
      (program (fun _ => ['j'])
          (.object [("Top".toList, .array [.object [("Print".toList,
            .object [("arguments".toList, .array [.string "Null".toList]),
                     ("format".toList, .string ['~'])])]])])).out =
        dumpLines (fun _ => ['j'])
          (.array [.object [("Print".toList,
            .object [("arguments".toList, .array [.string "Null".toList]),
                     ("format".toList, .string ['~'])])]] ::
            Json.printedList [.object [("Print".toList,
              .object [("arguments".toList, .array [.string "Null".toList]),
                       ("format".toList, .string ['~'])])]]) ++ (AST.Top data).eval.out :=
  build_prints_visited_values (fun _ => ['j'])
    [.object [("Print".toList,
      .object [("arguments".toList, .array [.string "Null".toList]),
               ("format".toList, .string ['~'])])]] (by decide)

/-- Claim C20: for a record whose recognized entries carry well-typed payloads, `parse`
returns, and it returns no node if and only if the record is not the bare string `"Null"` and
none of its entry keys is `"Integer"`, `"Null"`, `"Boolean"` or `"Print"`; in particular the
empty mapping and a bare string other than `"Null"` yield no node. -/
theorem parse_returns_no_node_iff (dump : Json → List Char) (r : Json)
    (h : r.wellTyped false = true) :
    (∃ o, (Interpreter.parse dump r).res = .ok o ∧
      (o = none ↔ r ≠ .string "Null".toList ∧ ∀ k ∈ r.keys, k ∉ tags)) ∧
    (Interpreter.parse dump (.object [])).res = .ok none ∧
    (∀ s : List Char, s ≠ "Null".toList → (Interpreter.parse dump (.string s)).res = .ok none) := by
  obtain ⟨o, hres, _, hiff, _⟩ := parse_wellTyped dump false r h
  refine ⟨⟨o, hres, hiff⟩, rfl, ?_⟩
  intro s hs
  exact (parse_no_entry dump (.string s) (fun e => hs (Json.string.inj e))
    (fun _ e => by cases e)).1

/-- Witness for C20: the record `{"Foo": 1, "Print": {"arguments": [], "format": ""}}`. -/
theorem parse_returns_no_node_iff_witness :
    (∃ o, (Interpreter.parse (fun _ => [])
        (.object [("Foo".toList, .number 1), ("Print".toList,
          .object [("arguments".toList, .array []), ("format".toList, .string [])])])).res =
        .ok o ∧
      (o = none ↔
        Json.object [("Foo".toList, .number 1), ("Print".toList,
          .object [("arguments".toList, .array []), ("format".toList, .string [])])] ≠
          .string "Null".toList ∧
        ∀ k ∈ (Json.object [("Foo".toList, .number 1), ("Print".toList,
          .object [("arguments".toList, .array []),
            ("format".toList, .string [])])]).keys, k ∉ tags)) ∧
    (Interpreter.parse (fun _ => []) (.object [])).res = .ok none ∧
    (∀ s : List Char, s ≠ "Null".toList →
      (Interpreter.parse (fun _ => []) (.string s)).res = .ok none) :=
  parse_returns_no_node_iff (fun _ => [])
    (.object [("Foo".toList, .number 1), ("Print".toList,
      .object [("arguments".toList, .array []), ("format".toList, .string [])])])
    (by decide)

/-! ## The payload of an Integer node -/

